import Mathlib

/-!
Verification of the IMBotCore streaming core against its specification.

The Go sources are embedded shallowly: Go structs become Lean structures,
Go maps become association lists, channels become lists, and wall-clock
time becomes an explicit `now : Nat` argument threaded through the
operations.  Randomised values (stream ids, crypto prefixes) become
explicit parameters.  Every definition mirrors the corresponding source
function; deviations forced by the sequential embedding are noted in the
doc comments.
-/

namespace IMBot

/-- A payload value carried in `StreamChunk.Payload` (Go `interface{}`):
either the distinguished `botcore.NoResponse` sentinel or an otherwise
opaque object, which we index by a natural number. -/
inductive PVal where
  | noResponse : PVal
  | obj : Nat → PVal
deriving DecidableEq, Repr

/-- botcore.StreamChunk: one element of the pipeline's output sequence. -/
structure StreamChunk where
  Content : String
  Payload : Option PVal := none
  IsFinal : Bool := false
deriving DecidableEq, Repr

/-- botcore.Update: the platform-neutral normalized event.  The `Raw`
field (an opaque pointer back to the platform message) is omitted; all
other fields are kept. -/
structure Update where
  ID : String := ""
  SenderID : String := ""
  ChatID : String := ""
  ChatType : String := ""
  Text : String := ""
  Metadata : List (String × String) := []
deriving DecidableEq, Repr

/-- wecom.MessageSender. -/
structure MessageSender where
  UserID : String := ""
  CorpID : String := ""
deriving DecidableEq, Repr

/-- wecom.StreamPayload: the stream section of an inbound message. -/
structure StreamPayload where
  ID : String := ""
  Finish : Bool := false
  Content : String := ""
deriving DecidableEq, Repr

/-- wecom.TemplateCardEvent (the fields the adapter reads). -/
structure TemplateCardEvent where
  CardType : String := ""
  EventKey : String := ""
  TaskID : String := ""
deriving DecidableEq, Repr

/-- wecom.FeedbackEvent (the fields the adapter reads). -/
structure FeedbackEvent where
  ID : String := ""
deriving DecidableEq, Repr

/-- wecom.EventPayload (the fields the adapter reads). -/
structure EventPayload where
  EventType : String := ""
  EnterChat : Bool := false
  TemplateCard : Option TemplateCardEvent := none
  Feedback : Option FeedbackEvent := none
deriving DecidableEq, Repr

/-- wecom.Message: the decrypted inbound callback message (the fields the
core consumes). -/
structure Message where
  MsgID : String := ""
  ChatID : String := ""
  ChatType : String := ""
  From : MessageSender := {}
  MsgType : String := ""
  Text : Option String := none
  Stream : Option StreamPayload := none
  Event : Option EventPayload := none
  ResponseURL : String := ""
deriving DecidableEq, Repr

/-- Association-list lookup, mirroring a Go map read. -/
def alookup {α : Type} : List (String × α) → String → Option α
  | [], _ => none
  | (k2, v) :: rest, k => if k2 = k then some v else alookup rest k

/-- Association-list write, mirroring a Go map assignment: replaces the
value at an existing key and otherwise appends. -/
def aset {α : Type} : List (String × α) → String → α → List (String × α)
  | [], k, v => [(k, v)]
  | (k2, v2) :: rest, k, v =>
      if k2 = k then (k2, v) :: rest else (k2, v2) :: aset rest k v

/-- Association-list delete, mirroring Go `delete(m, k)`. -/
def aerase {α : Type} (l : List (String × α)) (k : String) : List (String × α) :=
  l.filter (fun e => e.1 ≠ k)

/-- wecom.Session: the per-conversation streaming context.  The bounded
channel `queue` (capacity 16) becomes a list whose head is the oldest
queued chunk. -/
structure Session where
  StreamID : String := ""
  MsgID : String := ""
  ChatID : String := ""
  UserID : String := ""
  Upd : Update := {}
  CreatedAt : Nat := 0
  LastAccess : Nat := 0
  queue : List StreamChunk := []
  Finished : Bool := false
  LastChunk : Option StreamChunk := none
  Accumulated : String := ""
deriving DecidableEq, Repr

/-- wecom.SessionManager: the stream-id → session registry with its
msg-id index and TTL. -/
structure SessionManager where
  sessions : List (String × Session) := []
  msgIndex : List (String × String) := []
  ttl : Nat := 0
deriving DecidableEq, Repr

/-- wecom.NewSessionManager: a non-positive ttl falls back to one minute
(here expressed in nanoseconds, Go's `time.Duration` unit). -/
def minuteNs : Nat := 60000000000

/-- wecom.NewSessionManager. -/
def NewSessionManager (ttl : Nat) : SessionManager :=
  { sessions := [], msgIndex := [], ttl := if ttl ≤ 0 then minuteNs else ttl }

/-- SessionManager.getSession: the empty stream id never resolves. -/
def getSession (m : SessionManager) (streamID : String) : Option Session :=
  if streamID = "" then none else alookup m.sessions streamID

/-- Store back a session under its stream id (the Go code mutates the
session in place through a shared pointer). -/
def setSession (m : SessionManager) (streamID : String) (s : Session) : SessionManager :=
  { m with sessions := aset m.sessions streamID s }

/-- SessionManager.GetStreamIDByMsg. -/
def GetStreamIDByMsg (m : SessionManager) (msgID : String) : Option String :=
  if msgID = "" then none else alookup m.msgIndex msgID

/-- Session.touch: refresh the last-access time. -/
def touch (s : Session) (now : Nat) : Session :=
  { s with LastAccess := now }

/-- Session.setFinished: mark finished and refresh the last-access time. -/
def setFinished (s : Session) (now : Nat) : Session :=
  { s with Finished := true, LastAccess := now }

/-- SessionManager.MarkFinished. -/
def MarkFinished (m : SessionManager) (streamID : String) (now : Nat) : SessionManager :=
  match getSession m streamID with
  | none => m
  | some s => setSession m streamID (setFinished s now)

/-- The existing session CreateOrGet tries to reuse: a msg-id hit in
the index resolved through the session map. -/
def lookupExisting (m : SessionManager) (msg : Message) : Option Session :=
  if msg.MsgID ≠ "" then
    match GetStreamIDByMsg m msg.MsgID with
    | some streamID => getSession m streamID
    | none => none
  else none

/-- SessionManager.CreateOrGet.  The random stream id minted for a new
session is passed in as `newStreamID` (the source draws it from the OS
RNG in `generateStreamID`). -/
def CreateOrGet (m : SessionManager) (msg : Message) (newStreamID : String) (now : Nat) :
    Session × Bool × SessionManager :=
  match lookupExisting m msg with
  | some s =>
      let s2 := touch s now
      (s2, false, setSession m s.StreamID s2)
  | none =>
      let session : Session :=
        { StreamID := newStreamID, MsgID := msg.MsgID, ChatID := msg.ChatID,
          UserID := msg.From.UserID, CreatedAt := now, LastAccess := now, queue := [] }
      let m2 := { m with sessions := aset m.sessions newStreamID session,
                         msgIndex := if msg.MsgID ≠ "" then aset m.msgIndex msg.MsgID newStreamID
                                     else m.msgIndex }
      (session, true, m2)

/-- SessionManager.Accumulate: accumulate content into the session state
without enqueueing; `LastChunk.Content` is rewritten to the new
accumulated text (creating a fresh non-final snapshot when absent). -/
def Accumulate (m : SessionManager) (streamID content : String) (now : Nat) :
    SessionManager × Bool :=
  match getSession m streamID with
  | none => (m, false)
  | some s =>
      let acc := s.Accumulated ++ content
      let lc : Option StreamChunk :=
        match s.LastChunk with
        | some c => some { c with Content := acc }
        | none => some { Content := acc, Payload := none, IsFinal := false }
      (setSession m streamID { s with LastAccess := now, Accumulated := acc, LastChunk := lc },
       true)

/-- The result of SessionManager.Publish in the sequential embedding.
`ok` is the `return true` path.  `blocked` is the queue-overflow path:
after the non-blocking try-send fails, the source performs a second,
unconditional channel send which suspends until some consumer receives;
with no concurrent consumer the call never returns, and the manager is
left in the state it had at the blocking send (accumulation and
last-chunk updates already applied). -/
inductive PublishOutcome where
  | noSession : PublishOutcome
  | ok : SessionManager → PublishOutcome
  | blocked : SessionManager → PublishOutcome
deriving DecidableEq, Repr

/-- SessionManager.Publish: append the chunk content to the accumulated
text, snapshot the full text into the chunk, record it as `LastChunk`,
then try a non-blocking send into the 16-slot queue (falling back to a
blocking send), and finally mark the session finished for a final
chunk. -/
def Publish (m : SessionManager) (streamID : String) (chunk : StreamChunk) (now : Nat) :
    PublishOutcome :=
  match getSession m streamID with
  | none => PublishOutcome.noSession
  | some s =>
      let acc := s.Accumulated ++ chunk.Content
      let fullChunk := { chunk with Content := acc }
      let finished := fullChunk.IsFinal
      let s1 := { s with LastAccess := now, Accumulated := acc, LastChunk := some fullChunk }
      if s1.queue.length < 16 then
        let m2 := setSession m streamID { s1 with queue := s1.queue ++ [fullChunk] }
        if finished then PublishOutcome.ok (MarkFinished m2 streamID now)
        else PublishOutcome.ok m2
      else
        PublishOutcome.blocked (setSession m streamID s1)

/-- SessionManager.Consume: with a queued chunk available, drain the
whole queue keeping the newest snapshot and OR-ing the final bit (the
source's receive loop with a `default` exit); with the queue empty the
timer fires and the cached `LastChunk` clone is returned when the
session is finished.  The `timeout` argument only bounds the wall-clock
wait in the source (a non-positive value falls back to 500ms) and does
not affect which value is returned, so the embedding carries it
unused. -/
def Consume (m : SessionManager) (streamID : String) (timeout : Int) (now : Nat) :
    Option StreamChunk × SessionManager :=
  match getSession m streamID with
  | none => (none, m)
  | some s =>
      match s.queue with
      | [] =>
          let cached : Option StreamChunk :=
            if s.Finished then s.LastChunk else none
          (cached, setSession m streamID { s with LastAccess := now })
      | firstChunk :: rest =>
          let latest0 := rest.foldl (fun _ c => c) firstChunk
          let finalSeen := rest.foldl (fun acc c => acc || c.IsFinal) firstChunk.IsFinal
          let latestChunk := if finalSeen then { latest0 with IsFinal := true } else latest0
          let s2 := { s with queue := [], LastAccess := now, LastChunk := some latestChunk,
                             Finished := if latestChunk.IsFinal then true else s.Finished }
          (some latestChunk, setSession m streamID s2)

/-- SessionManager.SetUpdate. -/
def SetUpdate (m : SessionManager) (streamID : String) (update : Update) : SessionManager :=
  match getSession m streamID with
  | none => m
  | some s => setSession m streamID { s with Upd := update }

/-- SessionManager.GetUpdate. -/
def GetUpdate (m : SessionManager) (streamID : String) : Update :=
  match getSession m streamID with
  | none => {}
  | some s => s.Upd

/-- The expiry test of SessionManager.Cleanup: `now.Sub(LastAccess) > ttl`.
Natural-number subtraction truncates at zero, which agrees with the Go
comparison (a negative elapsed duration is never greater than the
positive ttl). -/
def expiredAt (ttl now : Nat) (s : Session) : Bool :=
  decide (now - s.LastAccess > ttl)

/-- One iteration of the Cleanup loop: an expired session is removed and
its msg-id index entry is deleted only when the index still maps that
msg-id to this session's stream id. -/
def cleanupStep (ttl now : Nat) (acc : List (String × Session) × List (String × String))
    (entry : String × Session) : List (String × Session) × List (String × String) :=
  if expiredAt ttl now entry.2 then
    let sessions := aerase acc.1 entry.1
    let msgIndex :=
      if entry.2.MsgID ≠ "" then
        match alookup acc.2 entry.2.MsgID with
        | some mapped => if mapped = entry.1 then aerase acc.2 entry.2.MsgID else acc.2
        | none => acc.2
      else acc.2
    (sessions, msgIndex)
  else acc

/-- SessionManager.Cleanup: iterate over every session, deleting the
expired ones together with their (still-matching) msg-id index
entries. -/
def Cleanup (m : SessionManager) (now : Nat) : SessionManager :=
  let p := m.sessions.foldl (cleanupStep m.ttl now) (m.sessions, m.msgIndex)
  { m with sessions := p.1, msgIndex := p.2 }

/-! ### Association-list lemmas -/

theorem alookup_aset_self {α : Type} (l : List (String × α)) (k : String) (v : α) :
    alookup (aset l k v) k = some v := by
  induction l with
  | nil => simp [aset, alookup]
  | cons e rest ih =>
      obtain ⟨k2, v2⟩ := e
      by_cases h : k2 = k
      · simp [aset, alookup, h]
      · simp [aset, alookup, h, ih]

theorem alookup_aset_ne {α : Type} (l : List (String × α)) (k k2 : String) (v : α)
    (h : k2 ≠ k) : alookup (aset l k v) k2 = alookup l k2 := by
  have hks : ¬ k = k2 := fun hh => h hh.symm
  induction l with
  | nil => simp [aset, alookup, hks]
  | cons e rest ih =>
      obtain ⟨k3, v3⟩ := e
      by_cases h3 : k3 = k
      · subst h3
        simp [aset, alookup, hks]
      · simp only [aset, if_neg h3]
        by_cases h4 : k3 = k2
        · simp [alookup, h4]
        · simp [alookup, h4, ih]

theorem alookup_mem {α : Type} {l : List (String × α)} {k : String} {v : α}
    (h : alookup l k = some v) : (k, v) ∈ l := by
  induction l with
  | nil => simp [alookup] at h
  | cons e rest ih =>
      obtain ⟨k2, v2⟩ := e
      by_cases h2 : k2 = k
      · subst h2
        simp [alookup] at h
        simp [h]
      · simp [alookup, h2] at h
        exact List.mem_cons_of_mem _ (ih h)

theorem alookup_none_iff {α : Type} (l : List (String × α)) (k : String) :
    alookup l k = none ↔ ∀ v, (k, v) ∉ l := by
  induction l with
  | nil => simp [alookup]
  | cons e rest ih =>
      obtain ⟨k2, v2⟩ := e
      by_cases h2 : k2 = k
      · subst h2
        constructor
        · intro h
          simp [alookup] at h
        · intro h
          exact ((h v2 (List.mem_cons_self _ _)).elim)
      · simp only [alookup, if_neg h2, ih]
        constructor
        · intro h v hv
          rcases List.mem_cons.mp hv with hv | hv
          · exact h2 (congrArg Prod.fst hv).symm
          · exact h v hv
        · intro h v hv
          exact h v (List.mem_cons_of_mem _ hv)

theorem alookup_eq_some_of_mem {α : Type} {l : List (String × α)} {k : String} {v : α}
    (hnd : (l.map Prod.fst).Nodup) (hmem : (k, v) ∈ l) : alookup l k = some v := by
  induction l with
  | nil => simp at hmem
  | cons e rest ih =>
      obtain ⟨k2, v2⟩ := e
      simp only [List.map_cons, List.nodup_cons] at hnd
      rcases List.mem_cons.mp hmem with hv | hv
      · have h1 : k = k2 := congrArg Prod.fst hv
        have h2 : v = v2 := congrArg Prod.snd hv
        subst h1
        subst h2
        simp [alookup]
      · have hne : ¬ k2 = k := by
          intro hk
          subst hk
          exact hnd.1 (List.mem_map.mpr ⟨(k2, v), hv, rfl⟩)
        simp only [alookup, if_neg hne]
        exact ih hnd.2 hv

theorem aerase_mem {α : Type} (l : List (String × α)) (k : String) (e : String × α) :
    e ∈ aerase l k ↔ e ∈ l ∧ e.1 ≠ k := by
  simp [aerase, List.mem_filter]

theorem nodup_keys_aerase {α : Type} (l : List (String × α)) (k : String)
    (h : (l.map Prod.fst).Nodup) : ((aerase l k).map Prod.fst).Nodup := by
  unfold aerase
  exact (List.Sublist.map Prod.fst (List.filter_sublist l)).nodup h

theorem getSession_ne_empty {m : SessionManager} {streamID : String} {s : Session}
    (h : getSession m streamID = some s) : streamID ≠ "" := by
  intro he
  simp [getSession, he] at h

theorem getSession_setSession_self (m : SessionManager) (streamID : String) (s : Session)
    (h : streamID ≠ "") : getSession (setSession m streamID s) streamID = some s := by
  simp [getSession, setSession, h, alookup_aset_self]

theorem getSession_setSession_ne (m : SessionManager) (streamID sid2 : String) (s : Session)
    (h : sid2 ≠ streamID) : getSession (setSession m streamID s) sid2 = getSession m sid2 := by
  by_cases h2 : sid2 = ""
  · simp [getSession, h2]
  · simp [getSession, setSession, h2, alookup_aset_ne _ _ _ _ h]

theorem ttl_setSession (m : SessionManager) (streamID : String) (s : Session) :
    (setSession m streamID s).ttl = m.ttl := rfl

/-! ### C1: Publish under queue overflow -/

/-- The session state Publish has written when it reaches the blocking
send: accumulation and last-chunk updated, queue unchanged. -/
def publishPreState (s : Session) (chunk : StreamChunk) (now : Nat) : Session :=
  { s with
      LastAccess := now
      Accumulated := s.Accumulated ++ chunk.Content
      LastChunk := some { chunk with Content := s.Accumulated ++ chunk.Content } }

/-- The session state after a successful Publish: the snapshot carrying
the full accumulated text is appended to the queue, recorded as the last
chunk, and a final chunk marks the session finished. -/
def publishedSession (s : Session) (c : StreamChunk) (now : Nat) : Session :=
  { s with
      LastAccess := now
      Accumulated := s.Accumulated ++ c.Content
      LastChunk := some { c with Content := s.Accumulated ++ c.Content }
      queue := s.queue ++ [{ c with Content := s.Accumulated ++ c.Content }]
      Finished := if c.IsFinal then true else s.Finished }

theorem aset_aset {α : Type} (l : List (String × α)) (k : String) (a b : α) :
    aset (aset l k a) k b = aset l k b := by
  induction l with
  | nil => simp [aset]
  | cons e rest ih =>
      obtain ⟨k2, v2⟩ := e
      by_cases h2 : k2 = k
      · simp [aset, h2]
      · simp [aset, h2, ih]

theorem setSession_setSession (m : SessionManager) (streamID : String) (a b : Session) :
    setSession (setSession m streamID a) streamID b = setSession m streamID b := by
  simp [setSession, aset_aset]

/-- On queue overflow, Publish reaches the unconditional blocking send
with the session's pre-enqueue state written back. -/
theorem publish_blocked_eq (m : SessionManager) (streamID : String) (chunk : StreamChunk)
    (now : Nat) (s : Session) (hs : getSession m streamID = some s)
    (hq : ¬ s.queue.length < 16) :
    Publish m streamID chunk now =
      PublishOutcome.blocked (setSession m streamID (publishPreState s chunk now)) := by
  simp [Publish, hs, publishPreState, hq]

/-- The enqueued session state written by Publish before the
final-chunk bookkeeping runs. -/
def enqueuedSession (s : Session) (c : StreamChunk) (now : Nat) : Session :=
  { s with
      LastAccess := now
      Accumulated := s.Accumulated ++ c.Content
      LastChunk := some { c with Content := s.Accumulated ++ c.Content }
      queue := s.queue ++ [{ c with Content := s.Accumulated ++ c.Content }] }

/-- With room in the queue, Publish succeeds and yields exactly
`publishedSession`. -/
theorem publish_ok_eq (m : SessionManager) (streamID : String) (c : StreamChunk)
    (now : Nat) (s : Session) (hs : getSession m streamID = some s)
    (hq : s.queue.length < 16) :
    Publish m streamID c now =
      PublishOutcome.ok (setSession m streamID (publishedSession s c now)) := by
  have hne := getSession_ne_empty hs
  by_cases hfin : c.IsFinal = true
  · have hm2 : Publish m streamID c now = PublishOutcome.ok
        (MarkFinished (setSession m streamID (enqueuedSession s c now)) streamID now) := by
      simp [Publish, hs, hq, hfin, enqueuedSession]
    rw [hm2]
    simp only [MarkFinished, getSession_setSession_self _ _ _ hne, setSession_setSession]
    have hsess : setFinished (enqueuedSession s c now) now = publishedSession s c now := by
      simp [setFinished, enqueuedSession, publishedSession, hfin]
    rw [hsess]
  · simp only [Bool.not_eq_true] at hfin
    simp [Publish, hs, hq, publishedSession, enqueuedSession, hfin]

/-- C1.  When the session's queue already holds 16 snapshots, `Publish`
does not return: the non-blocking try-send fails and the source falls
through to an unconditional channel send that suspends until a consumer
receives.  At the block point the queue is exactly the old 16 snapshots
— in particular nothing has been overwritten — contradicting the claim
(and the source's own doc comment) that a full queue is handled by
overwriting the newest snapshot and returning true. -/
theorem publish_blocks_on_full_queue (m : SessionManager) (streamID : String)
    (chunk : StreamChunk) (now : Nat) (s : Session)
    (hs : getSession m streamID = some s) (hq : s.queue.length = 16) :
    ∃ m2, Publish m streamID chunk now = PublishOutcome.blocked m2 ∧
      (∀ m3, Publish m streamID chunk now ≠ PublishOutcome.ok m3) ∧
      ∃ s2, getSession m2 streamID = some s2 ∧ s2.queue = s.queue := by
  have hne := getSession_ne_empty hs
  have hpub : Publish m streamID chunk now =
      PublishOutcome.blocked (setSession m streamID (publishPreState s chunk now)) :=
    publish_blocked_eq m streamID chunk now s hs (by simp [hq])
  refine ⟨_, hpub, ?_, ?_⟩
  · intro m3 hok
    rw [hpub] at hok
    exact PublishOutcome.noConfusion hok
  · exact ⟨_, getSession_setSession_self _ _ _ hne, rfl⟩

/-- Witness for `publish_blocks_on_full_queue`: a concrete manager whose
single session holds 16 queued snapshots. -/
def fullQueue16 : List StreamChunk :=
  List.replicate 16 { Content := "x", Payload := none, IsFinal := false }

/-- A concrete manager with one session whose queue is full. -/
def fullQueueManager : SessionManager :=
  { sessions := [("sid1", { StreamID := "sid1", queue := fullQueue16 })],
    msgIndex := [], ttl := minuteNs }

theorem publish_blocks_on_full_queue_witness :
    getSession fullQueueManager "sid1" =
        some { StreamID := "sid1", queue := fullQueue16 } ∧
      ∃ m2, Publish fullQueueManager "sid1" { Content := "y" } 5 =
          PublishOutcome.blocked m2 ∧
        (∀ m3, Publish fullQueueManager "sid1" { Content := "y" } 5 ≠ PublishOutcome.ok m3) ∧
        ∃ s2, getSession m2 "sid1" = some s2 ∧
          s2.queue = ({ StreamID := "sid1", queue := fullQueue16 } : Session).queue :=
  ⟨by decide, publish_blocks_on_full_queue fullQueueManager "sid1" { Content := "y" } 5
    { StreamID := "sid1", queue := fullQueue16 } (by decide) (by decide)⟩

/-! ### C2: Consume drains, merges, and falls back on timeout -/

/-- The drain loop keeps the most recent received chunk. -/
theorem foldl_choose_last {α : Type} (rest : List α) (first : α) :
    rest.foldl (fun _ c => c) first = rest.getLastD first := by
  induction rest generalizing first with
  | nil => rfl
  | cons b bs ih =>
      rw [List.foldl_cons, List.getLastD_cons]
      exact ih b

/-- The drain loop ORs the final bit over every received chunk. -/
theorem foldl_or_final (rest : List StreamChunk) (b : Bool) :
    rest.foldl (fun acc c => acc || c.IsFinal) b = (b || rest.any (fun c => c.IsFinal)) := by
  induction rest generalizing b with
  | nil => simp
  | cons c cs ih => simp [List.foldl_cons, ih, Bool.or_assoc]

/-- Plumbing for concrete scenarios: the manager state after a Publish,
whichever constructor resulted. -/
def afterPub (m : SessionManager) (streamID : String) (c : StreamChunk) (now : Nat) :
    SessionManager :=
  match Publish m streamID c now with
  | PublishOutcome.ok m2 => m2
  | PublishOutcome.blocked m2 => m2
  | PublishOutcome.noSession => m

/-- Whether a Publish call returned `true` without blocking. -/
def isOk : PublishOutcome → Bool
  | PublishOutcome.ok _ => true
  | _ => false

/-- The spec's S2 scenario: a fresh manager (TTL 50ms, in nanoseconds)
after CreateOrGet with msg-id "mid", stream id "sid1" minted at time 0. -/
def scenarioMgr : SessionManager :=
  (CreateOrGet (NewSessionManager 50000000)
    { MsgID := "mid", ChatID := "cid", From := { UserID := "uid" } } "sid1" 0).2.2

/-- C2.  With a chunk queued, Consume returns the newest queued snapshot
with the final bit OR-ed over every drained chunk; with the queue empty
(the timeout path) it returns the cached last-chunk clone exactly when
the session is finished, and nil otherwise.  In particular the spec's
scenario holds: Publish "chunk1" then Publish final "final" followed by
Consume yields content "chunk1final" with the final bit set. -/
theorem consume_drains_merges_and_falls_back (m : SessionManager) (streamID : String)
    (timeout : Int) (now : Nat) (s : Session) (hs : getSession m streamID = some s) :
    (∀ firstChunk rest, s.queue = firstChunk :: rest →
        (Consume m streamID timeout now).1 =
          some { rest.getLastD firstChunk with
                 IsFinal := firstChunk.IsFinal || rest.any (fun c => c.IsFinal) }) ∧
    (s.queue = [] →
        (Consume m streamID timeout now).1 = if s.Finished then s.LastChunk else none) ∧
    (isOk (Publish scenarioMgr "sid1" { Content := "chunk1" } 1) = true ∧
     isOk (Publish (afterPub scenarioMgr "sid1" { Content := "chunk1" } 1) "sid1"
        { Content := "final", IsFinal := true } 2) = true ∧
     (Consume (afterPub (afterPub scenarioMgr "sid1" { Content := "chunk1" } 1) "sid1"
        { Content := "final", IsFinal := true } 2) "sid1" 10000000 3).1 =
       some { Content := "chunk1final", Payload := none, IsFinal := true }) := by
  refine ⟨?_, ?_, by decide, by decide, by decide⟩
  · intro firstChunk rest hq
    simp only [Consume, hs, hq, foldl_choose_last, foldl_or_final]
    by_cases hf : (firstChunk.IsFinal || rest.any (fun c => c.IsFinal)) = true
    · simp [hf]
    · have hlast : (rest.getLastD firstChunk).IsFinal = false := by
        have hmem : rest.getLastD firstChunk ∈ firstChunk :: rest :=
          List.getLastD_mem_cons _ _
        rcases List.mem_cons.mp hmem with hmm | hmm
        · rw [hmm]
          simp only [Bool.or_eq_true] at hf
          exact Bool.eq_false_iff.mpr (fun h => hf (Or.inl h))
        · by_contra hcon
          have hany : rest.any (fun c => c.IsFinal) = true :=
            List.any_eq_true.mpr ⟨_, hmm, by simpa using hcon⟩
          exact hf (by simp [hany])
      simp only [Bool.not_eq_true] at hf
      rw [hf]
      simp only [Bool.false_eq_true, if_false]
      rw [← hlast]
  · intro hq
    simp [Consume, hs, hq]

/-- A concrete session holding two queued snapshots, for the C2 witness. -/
def c2Session : Session :=
  { StreamID := "sid1",
    queue := [{ Content := "a" }, { Content := "ab", IsFinal := true }],
    Accumulated := "ab" }

/-- A concrete manager for the C2 witness. -/
def c2Mgr : SessionManager :=
  { sessions := [("sid1", c2Session)], msgIndex := [], ttl := minuteNs }

theorem consume_drains_merges_and_falls_back_witness :
    getSession c2Mgr "sid1" = some c2Session ∧
      (Consume c2Mgr "sid1" 10 7).1 =
        some { Content := "ab", Payload := none, IsFinal := true } :=
  ⟨by decide, by
    have h := (consume_drains_merges_and_falls_back c2Mgr "sid1" 10 7 c2Session
      (by decide)).1 { Content := "a" } [{ Content := "ab", IsFinal := true }] rfl
    simpa using h⟩

/-! ### C3: the accumulation invariant -/

/-- A state-mutating session operation of the kind the claim quantifies
over: a Publish or an Accumulate. -/
inductive SOp where
  | pub : StreamChunk → SOp
  | accum : String → SOp
deriving DecidableEq, Repr

/-- The text an operation feeds into the accumulator. -/
def opContent : SOp → String
  | SOp.pub c => c.Content
  | SOp.accum str => str

/-- In-order concatenation of the contents fed by a list of operations. -/
def concatContents (l : List SOp) : String :=
  l.foldr (fun op acc => opContent op ++ acc) ""

/-- The session state written by Accumulate. -/
def accumulatedSession (s : Session) (content : String) (now : Nat) : Session :=
  { s with
      LastAccess := now
      Accumulated := s.Accumulated ++ content
      LastChunk :=
        match s.LastChunk with
        | some c => some { c with Content := s.Accumulated ++ content }
        | none => some { Content := s.Accumulated ++ content, Payload := none,
                         IsFinal := false } }

/-- Accumulate writes back exactly `accumulatedSession`. -/
theorem accumulate_eq (m : SessionManager) (streamID content : String) (now : Nat)
    (s : Session) (hs : getSession m streamID = some s) :
    Accumulate m streamID content now =
      (setSession m streamID (accumulatedSession s content now), true) := by
  cases hl : s.LastChunk with
  | none => simp [Accumulate, hs, accumulatedSession, hl]
  | some c => simp [Accumulate, hs, accumulatedSession, hl]

/-- Run one session operation (a blocked Publish leaves the state it had
written at the blocking send). -/
def runOp (m : SessionManager) (streamID : String) (now : Nat) : SOp → SessionManager
  | SOp.pub c => afterPub m streamID c now
  | SOp.accum str => (Accumulate m streamID str now).1

/-- Run a sequence of session operations. -/
def runOps (m : SessionManager) (streamID : String) (now : Nat) : List SOp → SessionManager
  | [] => m
  | op :: rest => runOps (runOp m streamID now op) streamID now rest

/-- A fresh one-session manager for the C3 trace. -/
def c3Base : SessionManager :=
  { sessions := [("sid1", { StreamID := "sid1" })], msgIndex := [], ttl := minuteNs }

/-- C3 counterexample.  The claimed invariant `LastChunk.Content =
Accumulated whenever LastChunk is non-nil` is not kept by every session
operation: Publish "a", then Accumulate "b", then Consume leaves
`LastChunk.Content = "a"` while `Accumulated = "ab"` — Consume rewrites
`LastChunk` to the drained snapshot, which predates the Accumulate. -/
theorem lastchunk_eq_accumulated_broken_by_consume :
    isOk (Publish c3Base "sid1" { Content := "a" } 1) = true ∧
    (Accumulate (afterPub c3Base "sid1" { Content := "a" } 1) "sid1" "b" 2).2 = true ∧
    ((getSession ((Consume ((Accumulate (afterPub c3Base "sid1" { Content := "a" } 1)
        "sid1" "b" 2).1) "sid1" 10 3).2) "sid1").map (fun s => s.LastChunk) =
      some (some { Content := "a", Payload := none, IsFinal := false })) ∧
    ((getSession ((Consume ((Accumulate (afterPub c3Base "sid1" { Content := "a" } 1)
        "sid1" "b" 2).1) "sid1" 10 3).2) "sid1").map (fun s => s.Accumulated) =
      some "ab") ∧
    ("a" : String) ≠ "ab" := by
  decide

/-- C3 amended.  Accumulated is the in-order concatenation of every
content passed to Publish or Accumulate (hence it only grows); each
successful Publish enqueues a snapshot carrying the full accumulated
text as of that Publish and re-establishes `LastChunk.Content =
Accumulated`, as does Accumulate — but Consume may later rewrite
`LastChunk` to an older drained snapshot (see the counterexample), so
the last-chunk equation is a post-condition of Publish/Accumulate, not a
global invariant. -/
theorem accumulated_is_concat_of_published (m : SessionManager) (streamID : String)
    (now : Nat) (s : Session) (hs : getSession m streamID = some s) :
    (∀ c, s.queue.length < 16 →
        ∃ s2, Publish m streamID c now = PublishOutcome.ok (setSession m streamID s2) ∧
          s2.Accumulated = s.Accumulated ++ c.Content ∧
          s2.LastChunk = some { c with Content := s2.Accumulated } ∧
          s2.queue = s.queue ++ [{ c with Content := s2.Accumulated }]) ∧
    (∀ content, ∃ s2, (Accumulate m streamID content now).1 = setSession m streamID s2 ∧
        s2.Accumulated = s.Accumulated ++ content ∧
        ∃ c, s2.LastChunk = some c ∧ c.Content = s2.Accumulated) ∧
    (∀ ops, ∃ s2, getSession (runOps m streamID now ops) streamID = some s2 ∧
        s2.Accumulated = s.Accumulated ++ concatContents ops) := by
  refine ⟨?_, ?_, ?_⟩
  · intro c hlt
    exact ⟨publishedSession s c now, publish_ok_eq m streamID c now s hs hlt,
      rfl, rfl, rfl⟩
  · intro content
    refine ⟨accumulatedSession s content now, ?_, rfl, ?_⟩
    · rw [accumulate_eq m streamID content now s hs]
    · cases hl : s.LastChunk with
      | none =>
          exact ⟨{ Content := s.Accumulated ++ content, Payload := none, IsFinal := false },
            by simp [accumulatedSession, hl], rfl⟩
      | some c =>
          exact ⟨{ c with Content := s.Accumulated ++ content },
            by simp [accumulatedSession, hl], rfl⟩
  · intro ops
    induction ops generalizing m s with
    | nil =>
        refine ⟨s, ?_, by simp [concatContents]⟩
        simpa [runOps] using hs
    | cons op rest ih =>
        have hne := getSession_ne_empty hs
        have hstep : ∃ s1, getSession (runOp m streamID now op) streamID = some s1 ∧
            s1.Accumulated = s.Accumulated ++ opContent op := by
          cases op with
          | pub c =>
              by_cases hlt : s.queue.length < 16
              · refine ⟨publishedSession s c now, ?_, rfl⟩
                simp [runOp, afterPub, publish_ok_eq m streamID c now s hs hlt,
                  getSession_setSession_self _ _ _ hne]
              · refine ⟨publishPreState s c now, ?_, rfl⟩
                simp [runOp, afterPub, publish_blocked_eq m streamID c now s hs hlt,
                  getSession_setSession_self _ _ _ hne]
          | accum str =>
              refine ⟨accumulatedSession s str now, ?_, rfl⟩
              rw [runOp]
              rw [accumulate_eq m streamID str now s hs]
              exact getSession_setSession_self _ _ _ hne
        obtain ⟨s1, hs1, hacc1⟩ := hstep
        obtain ⟨s2, hs2, hacc2⟩ := ih _ _ hs1
        refine ⟨s2, by simpa [runOps] using hs2, ?_⟩
        rw [hacc2, hacc1]
        show _ = s.Accumulated ++ (opContent op ++ concatContents rest)
        simp [String.append_assoc]

/-- Witness for `accumulated_is_concat_of_published` on a concrete
two-operation trace. -/
theorem accumulated_is_concat_of_published_witness :
    getSession c3Base "sid1" = some { StreamID := "sid1" } ∧
      ∃ s2, getSession (runOps c3Base "sid1" 1
          [SOp.pub { Content := "a" }, SOp.accum "b"]) "sid1" = some s2 ∧
        s2.Accumulated = ({ StreamID := "sid1" } : Session).Accumulated ++
          concatContents [SOp.pub { Content := "a" }, SOp.accum "b"] :=
  ⟨by decide, (accumulated_is_concat_of_published c3Base "sid1" 1
    { StreamID := "sid1" } (by decide)).2.2
    [SOp.pub { Content := "a" }, SOp.accum "b"]⟩

/-! ### C8: Cleanup removes exactly the expired sessions -/

/-- The sessions side of the Cleanup fold ignores the index accumulator. -/
theorem cleanup_fold_fst (ttl now : Nat) (l : List (String × Session))
    (A : List (String × Session)) (B : List (String × String)) :
    (l.foldl (cleanupStep ttl now) (A, B)).1 =
      l.foldl (fun acc e => if expiredAt ttl now e.2 = true then aerase acc e.1 else acc) A := by
  induction l generalizing A B with
  | nil => rfl
  | cons e rest ih =>
      rw [List.foldl_cons, List.foldl_cons]
      by_cases hexp : expiredAt ttl now e.2 = true
      · rw [if_pos hexp]
        have hfst : (cleanupStep ttl now (A, B) e).1 = aerase A e.1 := by
          simp [cleanupStep, hexp]
        have hpair : cleanupStep ttl now (A, B) e =
            (aerase A e.1, (cleanupStep ttl now (A, B) e).2) := by
          exact Prod.ext hfst rfl
        rw [hpair, ih]
      · have hexp2 : expiredAt ttl now e.2 = false := by
          simpa using hexp
        have hpair : cleanupStep ttl now (A, B) e = (A, B) := by
          simp [cleanupStep, hexp2]
        rw [hpair, ih, if_neg hexp]

/-- Folding the per-entry erasures equals one filter over the sessions
accumulator. -/
theorem cleanup_foldA_filter (ttl now : Nat) (l : List (String × Session))
    (A : List (String × Session)) :
    l.foldl (fun acc e => if expiredAt ttl now e.2 = true then aerase acc e.1 else acc) A =
      A.filter (fun a => ! l.any (fun e => expiredAt ttl now e.2 && (e.1 == a.1))) := by
  induction l generalizing A with
  | nil => simp
  | cons e rest ih =>
      rw [List.foldl_cons]
      by_cases hexp : expiredAt ttl now e.2 = true
      · rw [if_pos hexp, ih, aerase, List.filter_filter]
        apply List.filter_congr
        intro a _
        by_cases hk : e.1 = a.1
        · simp [hk, hexp]
        · have hk2 : ¬ a.1 = e.1 := fun hh => hk hh.symm
          simp [hk, hk2, hexp]
      · have hexp2 : expiredAt ttl now e.2 = false := by
          simpa using hexp
        rw [if_neg hexp, ih]
        apply List.filter_congr
        intro a _
        simp [hexp2]

/-- The msg-id index side of the Cleanup fold equals one filter: an
entry is dropped exactly when some expired session in the iterated list
carries its msg-id and the entry still maps that msg-id to the expired
session's stream id. -/
theorem cleanup_fold_snd (ttl now : Nat) (l : List (String × Session))
    (A : List (String × Session)) (B : List (String × String))
    (hnd : (B.map Prod.fst).Nodup) :
    (l.foldl (cleanupStep ttl now) (A, B)).2 =
      B.filter (fun e => ! l.any (fun ks =>
        expiredAt ttl now ks.2 && (ks.2.MsgID != "") && (ks.2.MsgID == e.1) &&
          (ks.1 == e.2))) := by
  induction l generalizing A B with
  | nil => simp
  | cons ks rest ih =>
      obtain ⟨k, s⟩ := ks
      rw [List.foldl_cons]
      by_cases hexp : expiredAt ttl now s = true
      · by_cases hmid : s.MsgID = ""
        · have hpair : cleanupStep ttl now (A, B) (k, s) = (aerase A k, B) := by
            simp [cleanupStep, hexp, hmid]
          rw [hpair, ih _ _ hnd]
          apply List.filter_congr
          intro e _
          simp [hexp, hmid]
        · cases hlook : alookup B s.MsgID with
          | none =>
              have hpair : cleanupStep ttl now (A, B) (k, s) = (aerase A k, B) := by
                simp [cleanupStep, hexp, hmid, hlook]
              rw [hpair, ih _ _ hnd]
              apply List.filter_congr
              intro e he
              have hkey : ¬ s.MsgID = e.1 := by
                intro hq
                have hno := (alookup_none_iff B s.MsgID).mp hlook e.2
                rw [hq] at hno
                exact hno he
              simp [hexp, hmid, hkey]
          | some mapped =>
              by_cases hmap : mapped = k
              · have hpair : cleanupStep ttl now (A, B) (k, s) =
                    (aerase A k, aerase B s.MsgID) := by
                  simp [cleanupStep, hexp, hmid, hlook, hmap]
                rw [hpair, ih _ _ (nodup_keys_aerase _ _ hnd)]
                rw [aerase, List.filter_filter]
                apply List.filter_congr
                intro e he
                by_cases hkey : s.MsgID = e.1
                · have hmem2 : (s.MsgID, e.2) ∈ B := by
                    rw [hkey]
                    exact he
                  have hsome := alookup_eq_some_of_mem hnd hmem2
                  rw [hlook] at hsome
                  have he2 : e.2 = k := by
                    injection hsome with hh
                    rw [← hh, hmap]
                  have hmid2 : ¬ e.1 = "" := by
                    rw [← hkey]
                    exact hmid
                  simp [hkey, hexp, hmid, hmid2, he2]
                · have hkey2 : ¬ e.1 = s.MsgID := fun hh => hkey hh.symm
                  simp [hkey, hkey2, hexp, hmid]
              · have hpair : cleanupStep ttl now (A, B) (k, s) = (aerase A k, B) := by
                  simp [cleanupStep, hexp, hmid, hlook, hmap]
                rw [hpair, ih _ _ hnd]
                apply List.filter_congr
                intro e he
                by_cases hkey : s.MsgID = e.1
                · have hmem2 : (s.MsgID, e.2) ∈ B := by
                    rw [hkey]
                    exact he
                  have hsome := alookup_eq_some_of_mem hnd hmem2
                  rw [hlook] at hsome
                  have he2 : e.2 = mapped := by
                    injection hsome with hh
                    exact hh.symm
                  have hke : ¬ k = e.2 := by
                    intro hh
                    rw [← hh] at he2
                    exact hmap he2.symm
                  simp [hkey, hexp, hmid, hke]
                · simp [hkey, hexp, hmid]
      · have hexp2 : expiredAt ttl now s = false := by
          simpa using hexp
        have hpair : cleanupStep ttl now (A, B) (k, s) = (A, B) := by
          simp [cleanupStep, hexp2]
        rw [hpair, ih _ _ hnd]
        apply List.filter_congr
        intro e _
        simp [hexp2]

/-- Under unique keys, two bindings of the same key coincide. -/
theorem mem_keys_unique {α : Type} {l : List (String × α)} (hnd : (l.map Prod.fst).Nodup)
    {k : String} {a b : α} (ha : (k, a) ∈ l) (hb : (k, b) ∈ l) : a = b := by
  have h1 := alookup_eq_some_of_mem hnd ha
  have h2 := alookup_eq_some_of_mem hnd hb
  rw [h1] at h2
  exact Option.some.inj h2

/-- C8.  Cleanup removes exactly the sessions whose `now − last-access`
exceeds the TTL, and exactly those msg-id index entries whose msg-id is
the removed session's (non-empty) msg-id and which still map it to that
session's stream id; every other session and index entry survives
unchanged. -/
theorem cleanup_removes_exactly_expired (m : SessionManager) (now : Nat)
    (hndS : (m.sessions.map Prod.fst).Nodup)
    (hndI : (m.msgIndex.map Prod.fst).Nodup) :
    (∀ streamID s, (streamID, s) ∈ (Cleanup m now).sessions ↔
        ((streamID, s) ∈ m.sessions ∧ ¬ now - s.LastAccess > m.ttl)) ∧
    (∀ msgID streamID, (msgID, streamID) ∈ (Cleanup m now).msgIndex ↔
        ((msgID, streamID) ∈ m.msgIndex ∧
          ¬ ∃ s, (streamID, s) ∈ m.sessions ∧ now - s.LastAccess > m.ttl ∧
            s.MsgID = msgID ∧ msgID ≠ "")) := by
  constructor
  · intro streamID s
    have hfold : (Cleanup m now).sessions =
        m.sessions.filter (fun a => ! m.sessions.any
          (fun e => expiredAt m.ttl now e.2 && (e.1 == a.1))) := by
      show (m.sessions.foldl (cleanupStep m.ttl now) (m.sessions, m.msgIndex)).1 = _
      rw [cleanup_fold_fst, cleanup_foldA_filter]
    rw [hfold, List.mem_filter]
    constructor
    · rintro ⟨hmem, hpred⟩
      refine ⟨hmem, ?_⟩
      intro hgt
      have : m.sessions.any (fun e => expiredAt m.ttl now e.2 && (e.1 == streamID)) = true :=
        List.any_eq_true.mpr ⟨(streamID, s), hmem, by simp [expiredAt, hgt]⟩
      rw [this] at hpred
      simp at hpred
    · rintro ⟨hmem, hnotexp⟩
      refine ⟨hmem, ?_⟩
      have : m.sessions.any (fun e => expiredAt m.ttl now e.2 && (e.1 == streamID)) = false := by
        rw [List.any_eq_false]
        rintro ⟨k2, s2⟩ hmem2
        simp only [Bool.and_eq_true, beq_iff_eq, not_and]
        intro hexp2 hk2
        rw [hk2] at hmem2
        have hss : s2 = s := mem_keys_unique hndS hmem2 hmem
        rw [hss] at hexp2
        exact hnotexp (by simpa [expiredAt] using hexp2)
      simp [this]
  · intro msgID streamID
    have hfold : (Cleanup m now).msgIndex =
        m.msgIndex.filter (fun e => ! m.sessions.any (fun ks =>
          expiredAt m.ttl now ks.2 && (ks.2.MsgID != "") && (ks.2.MsgID == e.1) &&
            (ks.1 == e.2))) := by
      show (m.sessions.foldl (cleanupStep m.ttl now) (m.sessions, m.msgIndex)).2 = _
      rw [cleanup_fold_snd _ _ _ _ _ hndI]
    rw [hfold, List.mem_filter]
    constructor
    · rintro ⟨hmem, hpred⟩
      refine ⟨hmem, ?_⟩
      rintro ⟨s, hsmem, hgt, hmid, hne⟩
      have : m.sessions.any (fun ks =>
          expiredAt m.ttl now ks.2 && (ks.2.MsgID != "") && (ks.2.MsgID == msgID) &&
            (ks.1 == streamID)) = true := by
        refine List.any_eq_true.mpr ⟨(streamID, s), hsmem, ?_⟩
        simp [expiredAt, hgt, hmid, hne]
      rw [this] at hpred
      simp at hpred
    · rintro ⟨hmem, hnot⟩
      refine ⟨hmem, ?_⟩
      have : m.sessions.any (fun ks =>
          expiredAt m.ttl now ks.2 && (ks.2.MsgID != "") && (ks.2.MsgID == msgID) &&
            (ks.1 == streamID)) = false := by
        rw [List.any_eq_false]
        rintro ⟨k2, s2⟩ hmem2
        simp only [Bool.and_eq_true, beq_iff_eq, bne_iff_ne]
        rintro ⟨⟨⟨hexp2, hmne⟩, hmeq⟩, hkeq⟩
        rw [hkeq] at hmem2
        exact hnot ⟨s2, hmem2, by simpa [expiredAt] using hexp2, hmeq, hmeq ▸ hmne⟩
      simp [this]

/-- An expired session for the C8 witness. -/
def c8OldSession : Session :=
  { StreamID := "sidOld", MsgID := "midOld", LastAccess := 0 }

/-- A live session for the C8 witness. -/
def c8NewSession : Session :=
  { StreamID := "sidNew", MsgID := "midNew", LastAccess := 100 }

/-- A two-session manager for the C8 witness (ttl 50, cleanup at 100). -/
def c8Mgr : SessionManager :=
  { sessions := [("sidOld", c8OldSession), ("sidNew", c8NewSession)],
    msgIndex := [("midOld", "sidOld"), ("midNew", "sidNew")], ttl := 50 }

theorem cleanup_removes_exactly_expired_witness :
    ((c8Mgr.sessions.map Prod.fst).Nodup ∧ (c8Mgr.msgIndex.map Prod.fst).Nodup) ∧
    (("sidNew", c8NewSession) ∈ (Cleanup c8Mgr 100).sessions ↔
      (("sidNew", c8NewSession) ∈ c8Mgr.sessions ∧
        ¬ 100 - c8NewSession.LastAccess > c8Mgr.ttl)) ∧
    (("midOld", "sidOld") ∈ (Cleanup c8Mgr 100).msgIndex ↔
      (("midOld", "sidOld") ∈ c8Mgr.msgIndex ∧
        ¬ ∃ s, ("sidOld", s) ∈ c8Mgr.sessions ∧ 100 - s.LastAccess > c8Mgr.ttl ∧
          s.MsgID = "midOld" ∧ ("midOld" : String) ≠ "")) :=
  ⟨⟨by decide, by decide⟩,
    (cleanup_removes_exactly_expired c8Mgr 100 (by decide) (by decide)).1 "sidNew" c8NewSession,
    (cleanup_removes_exactly_expired c8Mgr 100 (by decide) (by decide)).2 "midOld" "sidOld"⟩

/-! ### C10: Consume refreshes last-access in every branch -/

theorem mem_keys_aset {α : Type} (l : List (String × α)) (k x : String) (v : α) :
    x ∈ (aset l k v).map Prod.fst ↔ (x ∈ l.map Prod.fst ∨ x = k) := by
  induction l with
  | nil => simp [aset]
  | cons e rest ih =>
      obtain ⟨k2, v2⟩ := e
      by_cases h2 : k2 = k
      · subst h2
        simp only [aset, if_pos rfl]
        simp
        tauto
      · simp only [aset, if_neg h2, List.map_cons, List.mem_cons, ih]
        tauto

theorem nodup_keys_aset {α : Type} (l : List (String × α)) (k : String) (v : α)
    (h : (l.map Prod.fst).Nodup) : ((aset l k v).map Prod.fst).Nodup := by
  induction l with
  | nil => simp [aset]
  | cons e rest ih =>
      obtain ⟨k2, v2⟩ := e
      simp only [List.map_cons, List.nodup_cons] at h
      by_cases h2 : k2 = k
      · subst h2
        have hred : aset ((k2, v2) :: rest) k2 v = (k2, v) :: rest := by
          simp [aset]
        rw [hred]
        simp only [List.map_cons, List.nodup_cons]
        exact ⟨h.1, h.2⟩
      · have hred : aset ((k2, v2) :: rest) k v = (k2, v2) :: aset rest k v := by
          simp [aset, h2]
        rw [hred]
        simp only [List.map_cons, List.nodup_cons]
        refine ⟨?_, ih h.2⟩
        intro hmem
        rcases (mem_keys_aset rest k k2 v).mp hmem with hmem2 | hmem2
        · exact h.1 hmem2
        · exact h2 hmem2

theorem nodup_keys_filter {α : Type} (l : List (String × α)) (p : String × α → Bool)
    (h : (l.map Prod.fst).Nodup) : ((l.filter p).map Prod.fst).Nodup :=
  (List.Sublist.map Prod.fst (List.filter_sublist l)).nodup h

/-- C10.  On an existing session, Consume writes `last-access = now` in
every branch (drained snapshot, timeout with cached final, timeout with
nil), and a subsequent Cleanup at any `now2` with `now2 − now ≤ TTL`
does not remove the session. -/
theorem consume_refreshes_last_access_and_survives_cleanup (m : SessionManager)
    (streamID : String) (timeout : Int) (now now2 : Nat) (s : Session)
    (hs : getSession m streamID = some s)
    (hnd : (m.sessions.map Prod.fst).Nodup)
    (hfresh : now2 - now ≤ m.ttl) :
    ∃ s2, getSession (Consume m streamID timeout now).2 streamID = some s2 ∧
      s2.LastAccess = now ∧
      getSession (Cleanup (Consume m streamID timeout now).2 now2) streamID = some s2 := by
  have hne := getSession_ne_empty hs
  obtain ⟨X, heq, hlx⟩ : ∃ s2, (Consume m streamID timeout now).2 =
      setSession m streamID s2 ∧ s2.LastAccess = now := by
    cases hq : s.queue with
    | nil =>
        simp only [Consume, hs, hq]
        exact ⟨_, rfl, rfl⟩
    | cons a l =>
        simp only [Consume, hs, hq]
        exact ⟨_, rfl, rfl⟩
  rw [heq]
  have hget2 : getSession (setSession m streamID X) streamID = some X :=
    getSession_setSession_self _ _ _ hne
  have hnd2 : ((setSession m streamID X).sessions.map Prod.fst).Nodup :=
    nodup_keys_aset _ _ _ hnd
  have hmemX : (streamID, X) ∈ (setSession m streamID X).sessions := by
    apply alookup_mem (v := X)
    simpa [getSession, hne] using hget2
  have hclean : (Cleanup (setSession m streamID X) now2).sessions =
      (setSession m streamID X).sessions.filter
        (fun a => ! (setSession m streamID X).sessions.any
          (fun e => expiredAt m.ttl now2 e.2 && (e.1 == a.1))) := by
    show ((setSession m streamID X).sessions.foldl
      (cleanupStep (setSession m streamID X).ttl now2)
      ((setSession m streamID X).sessions, (setSession m streamID X).msgIndex)).1 = _
    rw [cleanup_fold_fst, cleanup_foldA_filter]
    rfl
  have hpred : (! (setSession m streamID X).sessions.any
      (fun e => expiredAt m.ttl now2 e.2 && (e.1 == streamID))) = true := by
    rw [Bool.not_eq_true', List.any_eq_false]
    rintro ⟨k2, s2⟩ hmem2
    simp only [Bool.and_eq_true, beq_iff_eq]
    rintro ⟨hexp2, hk2⟩
    rw [hk2] at hmem2
    have hss : s2 = X := mem_keys_unique hnd2 hmem2 hmemX
    rw [hss] at hexp2
    simp only [expiredAt, hlx, decide_eq_true_eq] at hexp2
    omega
  have hmemFil : (streamID, X) ∈ (Cleanup (setSession m streamID X) now2).sessions := by
    rw [hclean, List.mem_filter]
    exact ⟨hmemX, hpred⟩
  have hndFil : (((Cleanup (setSession m streamID X) now2).sessions).map Prod.fst).Nodup := by
    rw [hclean]
    exact nodup_keys_filter _ _ hnd2
  refine ⟨X, hget2, hlx, ?_⟩
  have hlook := alookup_eq_some_of_mem hndFil hmemFil
  simpa [getSession, hne] using hlook

theorem consume_refreshes_last_access_and_survives_cleanup_witness :
    (getSession c2Mgr "sid1" = some c2Session ∧
      (c2Mgr.sessions.map Prod.fst).Nodup ∧ 10 - 5 ≤ c2Mgr.ttl) ∧
    ∃ s2, getSession (Consume c2Mgr "sid1" 10 5).2 "sid1" = some s2 ∧
      s2.LastAccess = 5 ∧
      getSession (Cleanup (Consume c2Mgr "sid1" 10 5).2 10) "sid1" = some s2 :=
  ⟨⟨by decide, by decide, by decide⟩,
    consume_refreshes_last_access_and_survives_cleanup c2Mgr "sid1" 10 5 10 c2Session
      (by decide) (by decide) (by decide)⟩

/-! ### The command parser (command/parser.go)

Text is embedded as `List Char`.  Go's `unicode.IsSpace` is modelled on
its Latin-1 range (tab, newline, vertical tab, form feed, carriage
return, space, NEL, NBSP); code points of the higher Unicode `Zs`
category are out of scope.  Go's byte-length comparison
`len(first) <= len(prefix)` agrees with the rune-length comparison used
here whenever `first` starts with the prefix, which is the only case the
code reaches it in combination with `HasPrefix`. -/

/-- unicode.IsSpace on the Latin-1 range. -/
def goIsSpace (c : Char) : Bool :=
  c = ' ' || c = '\t' || c = '\n' || c = Char.ofNat 11 || c = Char.ofNat 12 ||
    c = '\r' || c = Char.ofNat 133 || c = Char.ofNat 160

/-- strings.TrimSpace. -/
def trimChars (l : List Char) : List Char :=
  ((l.dropWhile goIsSpace).reverse.dropWhile goIsSpace).reverse

/-- Helper for strings.Fields: `acc` is the reversed current field. -/
def fieldsAux : List Char → List Char → List (List Char)
  | [], acc => if acc = [] then [] else [acc.reverse]
  | c :: rest, acc =>
      if goIsSpace c then
        if acc = [] then fieldsAux rest [] else acc.reverse :: fieldsAux rest []
      else fieldsAux rest (c :: acc)

/-- strings.Fields: split around runs of whitespace. -/
def fieldsChars (l : List Char) : List (List Char) :=
  fieldsAux l []

/-- command.ParseResult. -/
structure ParseResult where
  IsCommand : Bool := false
  Tokens : List (List Char) := []
  Raw : List Char := []
  ArgumentRaw : List Char := []
deriving DecidableEq, Repr

/-- command.Parser; `Pfx` embeds the source's prefix field. -/
structure Parser where
  Pfx : List Char := []
deriving DecidableEq, Repr

/-- command.NewParser: the default "/" prefix. -/
def NewParser : Parser := { Pfx := ['/'] }

/-- The effective prefix Parse uses: an empty configured prefix falls
back to "/". -/
def effPfx (p : Parser) : List Char :=
  if p.Pfx = [] then ['/'] else p.Pfx

/-- strings.TrimPrefix. -/
def trimPfxChars (l pre : List Char) : List Char :=
  if pre.isPrefixOf l then l.drop pre.length else l

/-- Parser.Parse.  The `@`-truncation (`IndexRune` + slice up to the
first `@`) is written as `takeWhile (· ≠ @)`, which agrees with it both
when `@` occurs and when it does not. -/
def Parse (p : Parser) (text : List Char) : ParseResult :=
  let trimmed := trimChars text
  if trimmed = [] then { Raw := text }
  else
    let pfx := effPfx p
    match fieldsChars trimmed with
    | [] => { Raw := text }
    | first :: restFields =>
        if ¬ (pfx.isPrefixOf first) ∨ first.length ≤ pfx.length then { Raw := text }
        else
          let commandToken := (first.drop pfx.length).takeWhile (fun c => ¬ c = '@')
          if commandToken = [] then { Raw := text }
          else
            { IsCommand := true,
              Tokens := commandToken :: restFields,
              Raw := text,
              ArgumentRaw :=
                if restFields ≠ [] then trimChars (trimPfxChars trimmed first) else [] }

/-! ### C4: the command-detection predicate -/

/-- Every character of every field is non-whitespace. -/
theorem fieldsAux_no_space (l : List Char) (acc : List Char)
    (hacc : ∀ c ∈ acc, goIsSpace c = false) :
    ∀ f ∈ fieldsAux l acc, ∀ c ∈ f, goIsSpace c = false := by
  induction l generalizing acc with
  | nil =>
      intro f hf
      by_cases h : acc = []
      · simp [fieldsAux, h] at hf
      · simp only [fieldsAux, if_neg h, List.mem_singleton] at hf
        rw [hf]
        intro c hc
        exact hacc c (List.mem_reverse.mp hc)
  | cons c rest ih =>
      intro f hf
      by_cases hsp : goIsSpace c = true
      · rw [fieldsAux, if_pos hsp] at hf
        by_cases h : acc = []
        · rw [if_pos h] at hf
          exact ih [] (by simp) f hf
        · rw [if_neg h] at hf
          rcases List.mem_cons.mp hf with hf | hf
          · rw [hf]
            intro d hd
            exact hacc d (List.mem_reverse.mp hd)
          · exact ih [] (by simp) f hf
      · rw [fieldsAux, if_neg hsp] at hf
        refine ih (c :: acc) ?_ f hf
        intro d hd
        rcases List.mem_cons.mp hd with hd | hd
        · rw [hd]
          simpa using hsp
        · exact hacc d hd

/-- Every character of every field is non-whitespace. -/
theorem fieldsChars_no_space (l : List Char) :
    ∀ f ∈ fieldsChars l, ∀ c ∈ f, goIsSpace c = false :=
  fieldsAux_no_space l [] (by simp)

/-- Parse on whitespace-only input returns the not-a-command result. -/
theorem Parse_raw_of_trim_nil (p : Parser) (text : List Char)
    (htr : trimChars text = []) : Parse p text = { Raw := text } := by
  unfold Parse
  rw [if_pos htr]

/-- Parse with no fields returns the not-a-command result. -/
theorem Parse_raw_of_fields_nil (p : Parser) (text : List Char)
    (htr : ¬ trimChars text = []) (hfe : fieldsChars (trimChars text) = []) :
    Parse p text = { Raw := text } := by
  unfold Parse
  rw [if_neg htr, hfe]

/-- Parse returns the not-a-command result when the first field fails
the prefix test. -/
theorem Parse_raw_of_badcond (p : Parser) (text first : List Char)
    (restFields : List (List Char))
    (htr : ¬ trimChars text = [])
    (hfe : fieldsChars (trimChars text) = first :: restFields)
    (hcond : ¬ ((effPfx p).isPrefixOf first = true) ∨ first.length ≤ (effPfx p).length) :
    Parse p text = { Raw := text } := by
  unfold Parse
  rw [if_neg htr, hfe]
  dsimp only
  rw [if_pos hcond]

/-- Parse returns the not-a-command result when the command token is
empty after stripping the prefix and the `@`-suffix. -/
theorem Parse_raw_of_emptytok (p : Parser) (text first : List Char)
    (restFields : List (List Char))
    (htr : ¬ trimChars text = [])
    (hfe : fieldsChars (trimChars text) = first :: restFields)
    (hcond : ¬ (¬ ((effPfx p).isPrefixOf first = true) ∨ first.length ≤ (effPfx p).length))
    (htok : (first.drop (effPfx p).length).takeWhile (fun c => ¬ c = '@') = []) :
    Parse p text = { Raw := text } := by
  unfold Parse
  rw [if_neg htr, hfe]
  dsimp only
  rw [if_neg hcond, if_pos htok]

/-- Parse in the command case. -/
theorem Parse_eq_cmd (p : Parser) (text first : List Char)
    (restFields : List (List Char))
    (htr : ¬ trimChars text = [])
    (hfe : fieldsChars (trimChars text) = first :: restFields)
    (hcond : ¬ (¬ ((effPfx p).isPrefixOf first = true) ∨ first.length ≤ (effPfx p).length))
    (htok : ¬ (first.drop (effPfx p).length).takeWhile (fun c => ¬ c = '@') = []) :
    Parse p text =
      { IsCommand := true,
        Tokens := ((first.drop (effPfx p).length).takeWhile (fun c => ¬ c = '@')) :: restFields,
        Raw := text,
        ArgumentRaw :=
          if restFields ≠ [] then trimChars (trimPfxChars (trimChars text) first) else [] } := by
  unfold Parse
  rw [if_neg htr, hfe]
  dsimp only
  rw [if_neg hcond, if_neg htok]

/-- C4 counterexample.  On "/@x" the first trimmed field is "/@x": it
starts with the default prefix "/" and is longer than it, yet
`IsCommand` is false, because the command token is empty once the part
from the first `@` on is removed — a case the claim's iff omits. -/
theorem parse_prefixed_at_counterexample :
    trimChars ['/', '@', 'x'] = ['/', '@', 'x'] ∧
    fieldsChars ['/', '@', 'x'] = [['/', '@', 'x']] ∧
    (effPfx NewParser).isPrefixOf ['/', '@', 'x'] = true ∧
    (effPfx NewParser).length < (['/', '@', 'x'] : List Char).length ∧
    (Parse NewParser ['/', '@', 'x']).IsCommand = false := by
  decide

/-- C4 amended.  `IsCommand` is true iff the first whitespace-delimited
field of the trimmed text starts with the (effective) prefix, is longer
than it, **and** stripping the prefix and the part from the first `@` on
leaves a non-empty command token; when it is true, `tokens[0]` is that
stripped token, which contains no `@` and no whitespace. -/
theorem parse_is_command_iff (p : Parser) (text : List Char) :
    ((Parse p text).IsCommand = true ↔
      ∃ first restFields, fieldsChars (trimChars text) = first :: restFields ∧
        (effPfx p).isPrefixOf first = true ∧
        (effPfx p).length < first.length ∧
        (first.drop (effPfx p).length).takeWhile (fun c => ¬ c = '@') ≠ []) ∧
    (∀ first restFields, fieldsChars (trimChars text) = first :: restFields →
      (Parse p text).IsCommand = true →
      (Parse p text).Tokens =
        ((first.drop (effPfx p).length).takeWhile (fun c => ¬ c = '@')) :: restFields ∧
      ∀ c ∈ (first.drop (effPfx p).length).takeWhile (fun c => ¬ c = '@'),
        ¬ c = '@' ∧ goIsSpace c = false) := by
  by_cases htr : trimChars text = []
  · have hfe : fieldsChars (trimChars text) = [] := by
      rw [htr]
      rfl
    constructor
    · rw [Parse_raw_of_trim_nil p text htr, hfe]
      simp
    · intro first restFields hfr
      rw [hfe] at hfr
      simp at hfr
  · cases hfe : fieldsChars (trimChars text) with
    | nil =>
        constructor
        · rw [Parse_raw_of_fields_nil p text htr hfe]
          simp
        · intro first restFields hfr
          simp at hfr
    | cons first restFields =>
        have hmemtok : ∀ c ∈ (first.drop (effPfx p).length).takeWhile (fun c => ¬ c = '@'),
            ¬ c = '@' ∧ goIsSpace c = false := by
          intro c hc
          refine ⟨by simpa using List.mem_takeWhile_imp hc, ?_⟩
          have hc2 : c ∈ first.drop (effPfx p).length :=
            (List.takeWhile_sublist _).mem hc
          have hc3 : c ∈ first := (List.drop_sublist _ _).mem hc2
          exact fieldsChars_no_space (trimChars text) first
            (hfe ▸ List.mem_cons_self _ _) c hc3
        by_cases hcond : ¬ ((effPfx p).isPrefixOf first = true) ∨
            first.length ≤ (effPfx p).length
        · have hp := Parse_raw_of_badcond p text first restFields htr hfe hcond
          constructor
          · rw [hp]
            simp only [ParseResult.IsCommand]
            constructor
            · intro hfalse
              cases hfalse
            · rintro ⟨f2, r2, hf2, hpre2, hlen2, _⟩
              injection hf2 with h1 h2
              rw [← h1] at hpre2 hlen2
              rcases hcond with hcond | hcond
              · exact absurd hpre2 hcond
              · omega
          · intro f2 r2 hf2 hcmd
            rw [hp] at hcmd
            cases hcmd
        · by_cases htok : (first.drop (effPfx p).length).takeWhile (fun c => ¬ c = '@') = []
          · have hp := Parse_raw_of_emptytok p text first restFields htr hfe hcond htok
            constructor
            · rw [hp]
              simp only [ParseResult.IsCommand]
              constructor
              · intro hfalse
                cases hfalse
              · rintro ⟨f2, r2, hf2, _, _, htok2⟩
                injection hf2 with h1 h2
                rw [← h1] at htok2
                exact absurd htok htok2
            · intro f2 r2 hf2 hcmd
              rw [hp] at hcmd
              cases hcmd
          · have hp := Parse_eq_cmd p text first restFields htr hfe hcond htok
            push_neg at hcond
            constructor
            · rw [hp]
              simp only [ParseResult.IsCommand]
              constructor
              · intro _
                exact ⟨first, restFields, rfl, hcond.1, by omega, htok⟩
              · intro _
                trivial
            · intro f2 r2 hf2 _
              injection hf2 with h1 h2
              subst h1
              subst h2
              constructor
              · rw [hp]
              · exact hmemtok

/-- Witness for `parse_is_command_iff` at the concrete input "/echo x". -/
theorem parse_is_command_iff_witness :
    (Parse NewParser ['/', 'e', 'c', 'h', 'o', ' ', 'x']).IsCommand = true ∧
    (Parse NewParser ['/', 'e', 'c', 'h', 'o', ' ', 'x']).Tokens =
      [['e', 'c', 'h', 'o'], ['x']] := by
  have h := parse_is_command_iff NewParser ['/', 'e', 'c', 'h', 'o', ' ', 'x']
  have hcmd : (Parse NewParser ['/', 'e', 'c', 'h', 'o', ' ', 'x']).IsCommand = true :=
    h.1.mpr ⟨['/', 'e', 'c', 'h', 'o'], [['x']], by decide, by decide, by decide, by decide⟩
  refine ⟨hcmd, ?_⟩
  have h2 := (h.2 ['/', 'e', 'c', 'h', 'o'] [['x']] (by decide) hcmd).1
  rw [h2]
  decide

/-! ### The Bot orchestrator (Bot struct, Refresh, Initial)

The cryptographic layer is verified separately; `Refresh`/`Initial` here
return the pre-encryption reply object that the source passes to
`Crypto.EncryptResponse`.  The detached pipeline consumer the source
spawns with `go` runs asynchronously after `Initial` returns and is
outside the sequential embedding; `Initial` is parametrised by the
outcome of the 200ms race on the pipeline's first chunk. -/

/-- wecom.StreamReplyBody. -/
structure StreamReplyBody where
  ID : String := ""
  Finish : Bool := false
  Content : String := ""
deriving DecidableEq, Repr

/-- wecom.StreamReply. -/
structure StreamReply where
  MsgType : String := ""
  Stream : StreamReplyBody := {}
deriving DecidableEq, Repr

/-- wecom.BuildStreamReply. -/
def BuildStreamReply (streamID content : String) (finish : Bool) : StreamReply :=
  { MsgType := "stream", Stream := { ID := streamID, Finish := finish, Content := content } }

/-- wecom.StreamEmitter.Encode: ignores the update and lowers the chunk
to a stream reply. -/
def StreamEmitterEncode (update : Update) (streamID : String) (chunk : StreamChunk) :
    StreamReply :=
  BuildStreamReply streamID chunk.Content chunk.IsFinal

/-- A pre-encryption reply object: the chunk's payload verbatim, or the
emitter's stream reply. -/
inductive Reply where
  | payload : PVal → Reply
  | stream : StreamReply → Reply
deriving DecidableEq, Repr

/-- wecom.Bot.  `hasPipeline` embeds `Pipeline != nil`; `Emitter` is the
configured emitter (default `StreamEmitterEncode`); `fallback` is the
msg-id → final-chunk fallback map. -/
structure Bot where
  Sessions : SessionManager := {}
  Timeout : Int := 0
  hasPipeline : Bool := false
  Emitter : Update → String → StreamChunk → StreamReply := StreamEmitterEncode
  fallback : List (String × StreamChunk) := []

/-- Bot.buildReply: a non-nil chunk payload is returned verbatim,
otherwise the emitter encodes the chunk. -/
def buildReply (b : Bot) (update : Update) (streamID : String) (chunk : StreamChunk) :
    Reply :=
  match chunk.Payload with
  | some pv => Reply.payload pv
  | none => Reply.stream (b.Emitter update streamID chunk)

/-- The tail of Refresh once a chunk is in hand: mark the session
finished on a final chunk, then build the reply from the session's
bound update. -/
def refreshReplyWith (b : Bot) (streamID : String) (chunk : StreamChunk) (now : Nat) :
    Reply × Bot :=
  let b2 := if chunk.IsFinal then
      { b with Sessions := MarkFinished b.Sessions streamID now }
    else b
  (buildReply b2 (GetUpdate b2.Sessions streamID) streamID chunk, b2)

/-- The keep-alive tail of Refresh: an empty, non-final snapshot built
with the session's bound update. -/
def refreshKeepAlive (b : Bot) (streamID : String) : Reply × Bot :=
  (buildReply b (GetUpdate b.Sessions streamID) streamID
    { Content := "", IsFinal := false }, b)

/-- Bot.Refresh.  `sync.Map.LoadAndDelete` on the fallback map becomes
lookup followed by erase in one step. -/
def Refresh (b : Bot) (msg : Message) (now : Nat) : Reply × Bot :=
  let streamID := match msg.Stream with
    | some sp => sp.ID
    | none => ""
  if streamID = "" then
    (buildReply b {} "" { Content := "", IsFinal := true }, b)
  else
    let timeout : Int := if b.Timeout ≤ 0 then 500 else b.Timeout
    let b1 : Bot := { b with Sessions := (Consume b.Sessions streamID timeout now).2 }
    match (Consume b.Sessions streamID timeout now).1 with
    | some chunk => refreshReplyWith b1 streamID chunk now
    | none =>
        if msg.MsgID ≠ "" then
          match alookup b1.fallback msg.MsgID with
          | some cached =>
              refreshReplyWith { b1 with fallback := aerase b1.fallback msg.MsgID }
                streamID cached now
          | none => refreshKeepAlive b1 streamID
        else refreshKeepAlive b1 streamID

/-- Bot.cacheFallback: store the chunk only when final and keyed. -/
def cacheFallback (b : Bot) (msgID : String) (chunk : StreamChunk) : Bot × Bool :=
  if chunk.IsFinal ∧ msgID ≠ "" then
    ({ b with fallback := aset b.fallback msgID chunk }, false)
  else (b, false)

/-- Bot.pushStreamChunk. -/
def pushStreamChunk (b : Bot) (streamID msgID : String) (chunk : StreamChunk) (now : Nat) :
    Bot × Bool :=
  let target := if streamID = "" ∧ msgID ≠ "" then
      match GetStreamIDByMsg b.Sessions msgID with
      | some located => located
      | none => streamID
    else streamID
  if target = "" then cacheFallback b msgID chunk
  else
    match Publish b.Sessions target chunk now with
    | PublishOutcome.noSession => cacheFallback b msgID chunk
    | PublishOutcome.ok m2 =>
        if chunk.IsFinal then
          ({ b with Sessions := MarkFinished m2 target now }, true)
        else ({ b with Sessions := m2 }, true)
    | PublishOutcome.blocked m2 => ({ b with Sessions := m2 }, true)

/-- Bot.SetFinalMessage. -/
def SetFinalMessage (b : Bot) (msgID content : String) (now : Nat) : Bot × Bool :=
  pushStreamChunk b "" msgID { Content := content, IsFinal := true } now

/-- wecom.stripLeadingMentions. -/
def stripLeadingMentions (text : List Char) : List Char :=
  let trimmed := trimChars text
  if trimmed = [] then text
  else if ¬ (['@'].isPrefixOf trimmed) then text
  else
    let fields := fieldsChars trimmed
    if fields = [] then text
    else
      let rest := fields.dropWhile (fun f => ['@'].isPrefixOf f)
      if rest = [] then []
      else joinSpace rest
where
  joinSpace : List (List Char) → List Char
    | [] => []
    | [f] => f
    | f :: rest => f ++ ' ' :: joinSpace rest

/-- wecom.MessageAdapter.Normalize. -/
def MessageAdapterNormalize (msg : Message) : Update :=
  let text0 := match msg.Text with
    | some t => t
    | none => ""
  let text1 := String.mk (stripLeadingMentions text0.toList)
  let meta0 : List (String × String) :=
    [("platform", "wecom"), ("msgtype", msg.MsgType), ("response_url", msg.ResponseURL)]
  let meta1 := match msg.Stream with
    | some sp => aset meta0 "stream_id" sp.ID
    | none => meta0
  let em : List (String × String) × String :=
    match msg.Event with
    | some ev =>
        if msg.MsgType = "event" then
          let m2 := aset meta1 "event_type" ev.EventType
          if ev.EnterChat then (m2, "/welcome")
          else match ev.TemplateCard with
            | some ce =>
                (aset (aset (aset m2 "card_type" ce.CardType) "event_key" ce.EventKey)
                  "task_id" ce.TaskID, ce.EventKey)
            | none =>
                match ev.Feedback with
                | some fe => (aset m2 "feedback_id" fe.ID, text1)
                | none => (m2, text1)
        else (meta1, text1)
    | none => (meta1, text1)
  { ID := msg.MsgID, SenderID := msg.From.UserID, ChatID := msg.ChatID,
    ChatType := msg.ChatType, Text := em.2, Metadata := em.1 }

/-- The outcome of the 200ms race on the pipeline's first chunk in
Initial: a chunk arrived in time, the sequence closed immediately, or
the race timed out. -/
inductive FirstChunkOutcome where
  | chunk : StreamChunk → FirstChunkOutcome
  | closed : FirstChunkOutcome
  | timedOut : FirstChunkOutcome
deriving DecidableEq, Repr

/-- The errors Initial can signal (`ErrNoResponse`). -/
inductive BotErr where
  | noResponse : BotErr
deriving DecidableEq, Repr

/-- Bot.Initial. -/
def Initial (b : Bot) (msg : Message) (outcome : FirstChunkOutcome)
    (newStreamID : String) (now : Nat) : Except BotErr Reply × Bot :=
  let update := MessageAdapterNormalize msg
  let cg := CreateOrGet b.Sessions msg newStreamID now
  let streamID := cg.1.StreamID
  let b1 : Bot := { b with Sessions := SetUpdate cg.2.2 streamID update }
  let defaultChunk : StreamChunk := { Content := "", IsFinal := false }
  if cg.2.1 = true ∧ b.hasPipeline = true then
    match outcome with
    | FirstChunkOutcome.chunk c =>
        if c.Payload = some PVal.noResponse then
          (Except.error BotErr.noResponse,
           { b1 with Sessions := MarkFinished b1.Sessions streamID now })
        else
          match c.Payload with
          | some _ =>
              let b2 := if c.IsFinal then
                  { b1 with Sessions := MarkFinished b1.Sessions streamID now }
                else b1
              (Except.ok (buildReply b2 update streamID c), b2)
          | none =>
              let b2 : Bot :=
                { b1 with Sessions := (Accumulate b1.Sessions streamID c.Content now).1 }
              let b3 := if c.IsFinal then
                  { b2 with Sessions := MarkFinished b2.Sessions streamID now }
                else b2
              (Except.ok (buildReply b3 update streamID c), b3)
    | FirstChunkOutcome.closed =>
        let b2 : Bot := { b1 with Sessions := MarkFinished b1.Sessions streamID now }
        (Except.ok (buildReply b2 update streamID { Content := "", IsFinal := true }), b2)
    | FirstChunkOutcome.timedOut =>
        (Except.ok (buildReply b1 update streamID defaultChunk), b1)
  else (Except.ok (buildReply b1 update streamID defaultChunk), b1)

/-- An HTTP result of the POST handler: a status code and an optional
pre-encryption reply body (none = empty body). -/
structure HttpResponse where
  Status : Nat := 200
  Body : Option Reply := none

/-- Bot.handlePost after decryption: clean up expired sessions, dispatch
"stream" to Refresh and everything else to Initial, and map
`ErrNoResponse` to a 200 with empty body. -/
def handlePostCore (b : Bot) (msg : Message) (outcome : FirstChunkOutcome)
    (newStreamID : String) (now : Nat) : HttpResponse × Bot :=
  let b0 : Bot := { b with Sessions := Cleanup b.Sessions now }
  if msg.MsgType = "stream" then
    let r := Refresh b0 msg now
    ({ Status := 200, Body := some r.1 }, r.2)
  else
    match Initial b0 msg outcome newStreamID now with
    | (Except.error _, b2) => ({ Status := 200, Body := none }, b2)
    | (Except.ok reply, b2) => ({ Status := 200, Body := some reply }, b2)

/-! ### C5: the Refresh fallback is load-and-delete -/

theorem alookup_aerase_self {α : Type} (l : List (String × α)) (k : String) :
    alookup (aerase l k) k = none := by
  rw [alookup_none_iff]
  intro v hv
  exact absurd rfl ((aerase_mem l k (k, v)).mp hv).2

/-- With nothing to consume and no fallback entry, Refresh is the
keep-alive reply. -/
theorem refresh_eq_keepalive (b : Bot) (msg : Message) (sp : StreamPayload) (now : Nat)
    (hsp : msg.Stream = some sp) (hsid : ¬ sp.ID = "")
    (hcons : (Consume b.Sessions sp.ID (if b.Timeout ≤ 0 then 500 else b.Timeout) now).1 =
      none)
    (hfb : alookup b.fallback msg.MsgID = none) :
    Refresh b msg now =
      refreshKeepAlive
        { b with
            Sessions := (Consume b.Sessions sp.ID
              (if b.Timeout ≤ 0 then 500 else b.Timeout) now).2 } sp.ID := by
  simp only [Refresh, hsp]
  rw [if_neg hsid]
  simp only [hcons, hfb]
  by_cases hm : msg.MsgID ≠ ""
  · rw [if_pos hm]
  · rw [if_neg hm]

/-- C5.  When Consume returns nil and the message carries a msg-id with
a cached fallback entry, Refresh replies with that entry and removes it
in the same step (load-and-delete), so the entry is delivered at most
once: afterwards no fallback entry for the msg-id remains, and a second
Refresh whose Consume also returns nil replies with the empty non-final
keep-alive snapshot built from the session's bound Update. -/
theorem refresh_fallback_load_and_delete (b : Bot) (msg : Message) (sp : StreamPayload)
    (now now2 : Nat) (cached : StreamChunk)
    (hsp : msg.Stream = some sp) (hsid : ¬ sp.ID = "")
    (hcons : (Consume b.Sessions sp.ID (if b.Timeout ≤ 0 then 500 else b.Timeout) now).1 =
      none)
    (hmsg : msg.MsgID ≠ "")
    (hfb : alookup b.fallback msg.MsgID = some cached) :
    ((Refresh b msg now).1 =
      buildReply b (GetUpdate (Refresh b msg now).2.Sessions sp.ID) sp.ID cached) ∧
    alookup (Refresh b msg now).2.fallback msg.MsgID = none ∧
    ((Consume (Refresh b msg now).2.Sessions sp.ID
        (if b.Timeout ≤ 0 then 500 else b.Timeout) now2).1 = none →
      (Refresh (Refresh b msg now).2 msg now2).1 =
        Reply.stream (b.Emitter
          (GetUpdate (Refresh (Refresh b msg now).2 msg now2).2.Sessions sp.ID) sp.ID
          { Content := "", IsFinal := false })) := by
  have hrw : Refresh b msg now =
      refreshReplyWith
        { b with
            Sessions := (Consume b.Sessions sp.ID
              (if b.Timeout ≤ 0 then 500 else b.Timeout) now).2
            fallback := aerase b.fallback msg.MsgID } sp.ID cached now := by
    simp only [Refresh, hsp]
    rw [if_neg hsid]
    simp only [hcons, hfb, if_pos hmsg]
  have hfb2 : alookup (Refresh b msg now).2.fallback msg.MsgID = none := by
    rw [hrw]
    by_cases hf : cached.IsFinal = true <;>
      simp [refreshReplyWith, hf, alookup_aerase_self]
  have htm : (Refresh b msg now).2.Timeout = b.Timeout := by
    rw [hrw]
    by_cases hf : cached.IsFinal = true <;> simp [refreshReplyWith, hf]
  have hem : (Refresh b msg now).2.Emitter = b.Emitter := by
    rw [hrw]
    by_cases hf : cached.IsFinal = true <;> simp [refreshReplyWith, hf]
  refine ⟨?_, hfb2, ?_⟩
  · rw [hrw]
    by_cases hf : cached.IsFinal = true <;>
      simp [refreshReplyWith, buildReply, hf]
  · intro hcons2
    rw [← htm] at hcons2
    have hk := refresh_eq_keepalive ((Refresh b msg now).2) msg sp now2 hsp hsid
      hcons2 hfb2
    rw [hk]
    simp [refreshKeepAlive, buildReply, hem]

/-- The concrete fallback chunk of the C5 witness. -/
def c5Chunk : StreamChunk := { Content := "done", IsFinal := true }

/-- The C5 witness bot: no sessions, one cached fallback entry. -/
def c5Bot : Bot :=
  { Sessions := NewSessionManager 0, Timeout := 5,
    fallback := [("mid", c5Chunk)] }

/-- The C5 witness refresh message. -/
def c5Msg : Message :=
  { MsgID := "mid", MsgType := "stream", Stream := some { ID := "sidX" } }

theorem refresh_fallback_load_and_delete_witness :
    (c5Msg.Stream = some { ID := "sidX" } ∧
      (Consume c5Bot.Sessions "sidX" (if c5Bot.Timeout ≤ 0 then 500 else c5Bot.Timeout) 1).1 =
        none ∧
      alookup c5Bot.fallback c5Msg.MsgID = some c5Chunk) ∧
    ((Refresh c5Bot c5Msg 1).1 =
      buildReply c5Bot (GetUpdate (Refresh c5Bot c5Msg 1).2.Sessions "sidX") "sidX" c5Chunk) ∧
    alookup (Refresh c5Bot c5Msg 1).2.fallback c5Msg.MsgID = none ∧
    ((Consume (Refresh c5Bot c5Msg 1).2.Sessions "sidX"
        (if c5Bot.Timeout ≤ 0 then 500 else c5Bot.Timeout) 2).1 = none →
      (Refresh (Refresh c5Bot c5Msg 1).2 c5Msg 2).1 =
        Reply.stream (c5Bot.Emitter
          (GetUpdate (Refresh (Refresh c5Bot c5Msg 1).2 c5Msg 2).2.Sessions "sidX") "sidX"
          { Content := "", IsFinal := false })) :=
  ⟨⟨rfl, by decide, by decide⟩,
    refresh_fallback_load_and_delete c5Bot c5Msg { ID := "sidX" } 1 2 c5Chunk rfl
      (by decide) (by decide) (by decide) (by decide)⟩

/-! ### C6: the NoResponse sentinel -/

/-- When CreateOrGet reports a new session, it minted exactly the fresh
session under `newStreamID` and registered the msg-id index entry. -/
theorem createOrGet_of_isNew (m : SessionManager) (msg : Message) (nsid : String)
    (now : Nat) (h : (CreateOrGet m msg nsid now).2.1 = true) :
    CreateOrGet m msg nsid now =
      ({ StreamID := nsid, MsgID := msg.MsgID, ChatID := msg.ChatID,
         UserID := msg.From.UserID, CreatedAt := now, LastAccess := now, queue := [] },
       true,
       { m with
           sessions := aset m.sessions nsid
             { StreamID := nsid, MsgID := msg.MsgID, ChatID := msg.ChatID,
               UserID := msg.From.UserID, CreatedAt := now, LastAccess := now, queue := [] },
           msgIndex := if msg.MsgID ≠ "" then aset m.msgIndex msg.MsgID nsid
             else m.msgIndex }) := by
  cases hex : lookupExisting m msg with
  | some s =>
      unfold CreateOrGet at h
      rw [hex] at h
      cases h
  | none =>
      unfold CreateOrGet
      rw [hex]

/-- C6.  When the pipeline's first chunk carries the NoResponse
sentinel, Initial marks the freshly-created session finished and
returns `ErrNoResponse`, and the POST handler replies 200 with an empty
body. -/
theorem initial_noresponse_sentinel (b : Bot) (msg : Message) (c : StreamChunk)
    (newStreamID : String) (now : Nat)
    (hmt : ¬ msg.MsgType = "stream")
    (hpipe : b.hasPipeline = true)
    (hsid : ¬ newStreamID = "")
    (hnew : (CreateOrGet (Cleanup b.Sessions now) msg newStreamID now).2.1 = true)
    (hpay : c.Payload = some PVal.noResponse) :
    ((Initial { b with Sessions := Cleanup b.Sessions now } msg
        (FirstChunkOutcome.chunk c) newStreamID now).1 =
      Except.error BotErr.noResponse) ∧
    (∃ s, getSession (Initial { b with Sessions := Cleanup b.Sessions now } msg
        (FirstChunkOutcome.chunk c) newStreamID now).2.Sessions newStreamID = some s ∧
      s.Finished = true) ∧
    (handlePostCore b msg (FirstChunkOutcome.chunk c) newStreamID now).1.Status = 200 ∧
    (handlePostCore b msg (FirstChunkOutcome.chunk c) newStreamID now).1.Body = none := by
  have hcg := createOrGet_of_isNew (Cleanup b.Sessions now) msg newStreamID now hnew
  have hinit : Initial { b with Sessions := Cleanup b.Sessions now } msg
      (FirstChunkOutcome.chunk c) newStreamID now =
      (Except.error BotErr.noResponse,
       { b with
           Sessions :=
             MarkFinished
               (SetUpdate (CreateOrGet (Cleanup b.Sessions now) msg newStreamID now).2.2
                 newStreamID (MessageAdapterNormalize msg))
               newStreamID now }) := by
    simp [Initial, hcg, hpay, hpipe]
  refine ⟨by rw [hinit], ?_, ?_, ?_⟩
  · rw [hinit]
    have hg2 : getSession (CreateOrGet (Cleanup b.Sessions now) msg newStreamID now).2.2
        newStreamID = some
        { StreamID := newStreamID, MsgID := msg.MsgID, ChatID := msg.ChatID,
          UserID := msg.From.UserID, CreatedAt := now, LastAccess := now, queue := [] } := by
      rw [hcg]
      simp [getSession, hsid, alookup_aset_self]
    have hg3 := getSession_setSession_self
      (CreateOrGet (Cleanup b.Sessions now) msg newStreamID now).2.2 newStreamID
      ({ StreamID := newStreamID, MsgID := msg.MsgID, ChatID := msg.ChatID,
         UserID := msg.From.UserID, CreatedAt := now, LastAccess := now,
         queue := [] } : Session)
    simp only [SetUpdate, hg2]
    set su : Session :=
      { StreamID := newStreamID, MsgID := msg.MsgID, ChatID := msg.ChatID,
        UserID := msg.From.UserID, CreatedAt := now, LastAccess := now, queue := [],
        Upd := MessageAdapterNormalize msg } with hsu
    have hg4 : getSession (setSession
        (CreateOrGet (Cleanup b.Sessions now) msg newStreamID now).2.2 newStreamID su)
        newStreamID = some su :=
      getSession_setSession_self _ _ _ hsid
    simp only [MarkFinished, hg4]
    exact ⟨setFinished su now, getSession_setSession_self _ _ _ hsid, rfl⟩
  · have hpair : Initial { b with Sessions := Cleanup b.Sessions now } msg
        (FirstChunkOutcome.chunk c) newStreamID now =
        (Except.error BotErr.noResponse,
         (Initial { b with Sessions := Cleanup b.Sessions now } msg
           (FirstChunkOutcome.chunk c) newStreamID now).2) := by
      rw [hinit]
    simp only [handlePostCore]
    rw [if_neg hmt, hpair]
  · have hpair : Initial { b with Sessions := Cleanup b.Sessions now } msg
        (FirstChunkOutcome.chunk c) newStreamID now =
        (Except.error BotErr.noResponse,
         (Initial { b with Sessions := Cleanup b.Sessions now } msg
           (FirstChunkOutcome.chunk c) newStreamID now).2) := by
      rw [hinit]
    simp only [handlePostCore]
    rw [if_neg hmt, hpair]

/-- The C6 witness bot: empty registry, pipeline configured. -/
def c6Bot : Bot := { Sessions := NewSessionManager 0, hasPipeline := true }

/-- The C6 witness inbound message. -/
def c6Msg : Message := { MsgID := "m6", MsgType := "text", Text := some "hi" }

/-- The C6 witness first chunk: the NoResponse sentinel. -/
def c6Chunk : StreamChunk :=
  { Content := "", Payload := some PVal.noResponse, IsFinal := true }

theorem initial_noresponse_sentinel_witness :
    ((¬ c6Msg.MsgType = "stream") ∧ c6Bot.hasPipeline = true ∧
      (¬ ("sidN" : String) = "") ∧
      (CreateOrGet (Cleanup c6Bot.Sessions 1) c6Msg "sidN" 1).2.1 = true ∧
      c6Chunk.Payload = some PVal.noResponse) ∧
    ((Initial { c6Bot with Sessions := Cleanup c6Bot.Sessions 1 } c6Msg
        (FirstChunkOutcome.chunk c6Chunk) "sidN" 1).1 = Except.error BotErr.noResponse) ∧
    (∃ s, getSession (Initial { c6Bot with Sessions := Cleanup c6Bot.Sessions 1 } c6Msg
        (FirstChunkOutcome.chunk c6Chunk) "sidN" 1).2.Sessions "sidN" = some s ∧
      s.Finished = true) ∧
    (handlePostCore c6Bot c6Msg (FirstChunkOutcome.chunk c6Chunk) "sidN" 1).1.Status = 200 ∧
    (handlePostCore c6Bot c6Msg (FirstChunkOutcome.chunk c6Chunk) "sidN" 1).1.Body = none :=
  ⟨⟨by decide, rfl, by decide, by decide, rfl⟩,
    initial_noresponse_sentinel c6Bot c6Msg c6Chunk "sidN" 1 (by decide) rfl (by decide)
      (by decide) rfl⟩

/-! ### C7: Manager.Trigger emits exactly one final signal

The per-request executor is embedded as a function of the observable
behaviour of the freshly-built command tree: the ordered list of events
it produces (writes to the redirected stdout/stderr sink and calls to
the ExecutionContext's one-shot signal), plus the optional execution
error.  `initialized` embeds `m != nil && m.factory != nil`. -/

/-- An observable event of one command execution. -/
inductive ExecEvent where
  | write : String → ExecEvent
  | setResponsePayload : PVal → ExecEvent
  | setNoResponse : ExecEvent
deriving DecidableEq, Repr

/-- The chunks sent while the command runs, with the `sync.Once` state
threaded through (`fired` = a signal has already been sent).  Writes
are forwarded by StreamWriter as non-final chunks (empty writes send
nothing); each mutator goes through the once-guard. -/
def execEmits : List ExecEvent → Bool → List StreamChunk × Bool
  | [], fired => ([], fired)
  | ExecEvent.write s :: rest, fired =>
      if s = "" then execEmits rest fired
      else
        let r := execEmits rest fired
        ({ Content := s, Payload := none, IsFinal := false } :: r.1, r.2)
  | ExecEvent.setResponsePayload p :: rest, fired =>
      if fired then execEmits rest fired
      else
        let r := execEmits rest true
        ({ Content := "", Payload := some p, IsFinal := true } :: r.1, r.2)
  | ExecEvent.setNoResponse :: rest, fired =>
      if fired then execEmits rest fired
      else
        let r := execEmits rest true
        ({ Content := "", Payload := some PVal.noResponse, IsFinal := true } :: r.1, r.2)

/-- The chunk of the first signal call, if any. -/
def firstSignalChunk : List ExecEvent → Option StreamChunk
  | [] => none
  | ExecEvent.write _ :: rest => firstSignalChunk rest
  | ExecEvent.setResponsePayload p :: _ =>
      some { Content := "", Payload := some p, IsFinal := true }
  | ExecEvent.setNoResponse :: _ =>
      some { Content := "", Payload := some PVal.noResponse, IsFinal := true }

/-- The chunk emitted on a command execution error. -/
def errorChunk (e : String) : StreamChunk :=
  { Content := "❌ 执行出错: " ++ e ++ "\n" }

/-- Manager.Trigger as the list of chunks sent over the output channel,
in order. -/
def Trigger (initialized : Bool) (text : String) (events : List ExecEvent)
    (execErr : Option String) : List StreamChunk :=
  if ¬ initialized = true then
    [{ Content := "Error: Command Manager not initialized", IsFinal := true }]
  else
    let parsed := Parse NewParser text.toList
    if ¬ parsed.IsCommand = true then
      if trimChars text.toList = [] then
        [{ Content := "请输入命令 (e.g. /help)", IsFinal := true }]
      else
        [{ Content := "未识别的命令: " ++ String.mk parsed.Raw ++ "\n请尝试 /help",
           IsFinal := true }]
    else
      let r := execEmits events false
      let withErr := match execErr with
        | some e => r.1 ++ [errorChunk e]
        | none => r.1
      if r.2 = true then withErr else withErr ++ [{ Content := "", IsFinal := true }]

/-- The once-guard accounting: the chunks sent during execution contain
exactly one final chunk when the guard fired (starting unfired), none
otherwise; a guard that starts fired stays fired and emits no final. -/
theorem execEmits_final_count (events : List ExecEvent) (fired : Bool) :
    ((execEmits events fired).1.countP (fun c => c.IsFinal) =
      if fired = true then 0 else if (execEmits events fired).2 = true then 1 else 0) ∧
    (fired = true → (execEmits events fired).2 = true) := by
  induction events generalizing fired with
  | nil => cases fired <;> simp [execEmits]
  | cons e rest ih =>
      cases e with
      | write s =>
          by_cases hs : s = ""
          · simpa [execEmits, hs] using ih fired
          · have h := ih fired
            cases fired <;>
              simp [execEmits, hs, List.countP_cons, h.1, h.2]
      | setResponsePayload p =>
          cases fired with
          | true => simpa [execEmits] using ih true
          | false =>
              have h := ih true
              simp [execEmits, List.countP_cons, h.1, h.2 rfl]
      | setNoResponse =>
          cases fired with
          | true => simpa [execEmits] using ih true
          | false =>
              have h := ih true
              simp [execEmits, List.countP_cons, h.1, h.2 rfl]

/-- The guard fires exactly when some signal event occurs, and the first
signal's chunk is among the sent chunks. -/
theorem execEmits_first_signal (events : List ExecEvent) :
    (∀ c, firstSignalChunk events = some c →
      ((execEmits events false).2 = true ∧ c ∈ (execEmits events false).1)) ∧
    (firstSignalChunk events = none → (execEmits events false).2 = false) := by
  induction events with
  | nil => simp [execEmits, firstSignalChunk]
  | cons e rest ih =>
      cases e with
      | write s =>
          by_cases hs : s = ""
          · simpa [execEmits, firstSignalChunk, hs] using ih
          · constructor
            · intro c hc
              obtain ⟨h1, h2⟩ := ih.1 c hc
              exact ⟨by simp [execEmits, hs, h1], by simp [execEmits, hs, h2]⟩
            · intro hn
              simp [execEmits, hs, ih.2 hn]
      | setResponsePayload p =>
          constructor
          · intro c hc
            simp only [firstSignalChunk] at hc
            injection hc with hc
            refine ⟨?_, ?_⟩
            · simp [execEmits, (execEmits_final_count rest true).2 rfl]
            · rw [← hc]
              simp [execEmits]
          · intro hn
            simp [firstSignalChunk] at hn
      | setNoResponse =>
          constructor
          · intro c hc
            simp only [firstSignalChunk] at hc
            injection hc with hc
            refine ⟨?_, ?_⟩
            · simp [execEmits, (execEmits_final_count rest true).2 rfl]
            · rw [← hc]
              simp [execEmits]
          · intro hn
            simp [firstSignalChunk] at hn

/-- The first signal's chunk is always final. -/
theorem firstSignalChunk_isFinal (events : List ExecEvent) (c : StreamChunk)
    (hc : firstSignalChunk events = some c) : c.IsFinal = true := by
  induction events with
  | nil => cases hc
  | cons e rest ih =>
      cases e with
      | write s => exact ih (by simpa [firstSignalChunk] using hc)
      | setResponsePayload p =>
          simp only [firstSignalChunk] at hc
          injection hc with hc
          rw [← hc]
      | setNoResponse =>
          simp only [firstSignalChunk] at hc
          injection hc with hc
          rw [← hc]

/-- C7.  Every chunk sequence Trigger emits contains exactly one final
chunk; on the command path it is the first signal's chunk when the
command signalled (payload reply or NoResponse), and the trailing
default empty final chunk on normal completion — the once-guard
suppresses every later final. -/
theorem trigger_exactly_one_final (initialized : Bool) (text : String)
    (events : List ExecEvent) (execErr : Option String) :
    ((Trigger initialized text events execErr).countP (fun c => c.IsFinal) = 1) ∧
    (initialized = true → (Parse NewParser text.toList).IsCommand = true →
      (∀ c, firstSignalChunk events = some c →
        c ∈ Trigger initialized text events execErr ∧ c.IsFinal = true) ∧
      (firstSignalChunk events = none →
        (Trigger initialized text events execErr).getLast? =
          some { Content := "", IsFinal := true })) := by
  constructor
  · by_cases hinit : initialized = true
    · simp only [Trigger]
      rw [if_neg (not_not_intro hinit)]
      by_cases hcmd : (Parse NewParser text.toList).IsCommand = true
      · rw [if_neg (not_not_intro hcmd)]
        have hc := (execEmits_final_count events false).1
        simp only [Bool.false_eq_true, if_false] at hc
        by_cases hfired : (execEmits events false).2 = true
        · rw [if_pos hfired]
          rw [hfired] at hc
          simp only [if_pos rfl] at hc
          cases execErr with
          | none => exact hc
          | some e => simp [List.countP_append, errorChunk, hc]
        · have hf2 : (execEmits events false).2 = false := by
            simpa using hfired
          rw [if_neg hfired]
          rw [hf2] at hc
          simp only [Bool.false_eq_true, if_false] at hc
          cases execErr with
          | none => simp [List.countP_append, hc]
          | some e => simp [List.countP_append, errorChunk, hc]
      · rw [if_pos hcmd]
        by_cases htxt : trimChars text.toList = []
        · rw [if_pos htxt]
          simp
        · rw [if_neg htxt]
          simp
    · simp only [Trigger]
      rw [if_pos hinit]
      simp
  · intro hinit hcmd
    constructor
    · intro c hc
      obtain ⟨hfired, hmem⟩ := (execEmits_first_signal events).1 c hc
      have hcfin := firstSignalChunk_isFinal events c hc
      refine ⟨?_, hcfin⟩
      simp only [Trigger]
      rw [if_neg (not_not_intro hinit), if_neg (not_not_intro hcmd), if_pos hfired]
      cases execErr with
      | none => exact hmem
      | some e => exact List.mem_append_left _ hmem
    · intro hn
      have hf2 := (execEmits_first_signal events).2 hn
      simp only [Trigger]
      rw [if_neg (not_not_intro hinit), if_neg (not_not_intro hcmd),
        if_neg (by simp [hf2])]
      cases execErr with
      | none => simp
      | some e => simp

theorem trigger_exactly_one_final_witness :
    (Trigger true "/echo hi" [ExecEvent.write "a", ExecEvent.setNoResponse,
      ExecEvent.write "b"] none).countP (fun c => c.IsFinal) = 1 :=
  (trigger_exactly_one_final true "/echo hi"
    [ExecEvent.write "a", ExecEvent.setNoResponse, ExecEvent.write "b"] none).1

/-! ### C9: the cryptographic envelope

Modelled from the spec: the `Crypt` implementation (NewCrypt,
EncryptResponse, DecryptMessage, calcSignature, encrypt, decrypt) is not
under src — only its tests and callers are.  The definitions below
follow spec §4.1 and §6: AES-256-CBC with PKCS#7 padding, IV = the first
16 bytes of the 32-byte key, plaintext framed as
`random16 ‖ uint32-BE length ‖ payload ‖ corpID`, base64-encoded, with
signature = hash of the ascending sort of {token, timestamp, nonce,
ciphertext}.  The AES-256 block function itself and the SHA-1 hash are
standard primitives the spec names but does not define; they are carried
as parameters of the modelled `Crypt` (`encB`/`decB`, an invertible
byte-preserving 16-byte block cipher, and `hash`).  Bytes are `Nat` with
an explicit `< 256` bound. -/

/-- A byte list is valid when every entry is below 256. -/
def validBytes (l : List Nat) : Prop := ∀ x ∈ l, x < 256

/-- XOR of two 16-byte blocks. -/
def xorBlock (a b : List Nat) : List Nat := List.zipWith Nat.xor a b

/-- Split into 16-byte blocks; `acc` is the reversed current block.  A
ragged tail (never produced by padded input) is kept as a short block. -/
def blocks16Aux : List Nat → List Nat → List (List Nat)
  | [], acc => if acc = [] then [] else [acc.reverse]
  | b :: rest, acc =>
      if acc.length = 15 then (acc.reverse ++ [b]) :: blocks16Aux rest []
      else blocks16Aux rest (b :: acc)

/-- Split a byte list into 16-byte blocks. -/
def blocks16 (l : List Nat) : List (List Nat) := blocks16Aux l []

/-- CBC encryption over the block list: each plaintext block is XORed
with the previous ciphertext block (the IV first) and enciphered. -/
def cbcEncAux (encB : List Nat → List Nat) : List Nat → List (List Nat) → List (List Nat)
  | _, [] => []
  | prev, blk :: rest =>
      let cb := encB (xorBlock blk prev)
      cb :: cbcEncAux encB cb rest

/-- AES-CBC encryption (spec §6), block cipher abstracted. -/
def cbcEncrypt (encB : List Nat → List Nat) (iv bytes : List Nat) : List Nat :=
  (cbcEncAux encB iv (blocks16 bytes)).join

/-- CBC decryption over the block list. -/
def cbcDecAux (decB : List Nat → List Nat) : List Nat → List (List Nat) → List (List Nat)
  | _, [] => []
  | prev, cb :: rest => xorBlock (decB cb) prev :: cbcDecAux decB cb rest

/-- AES-CBC decryption (spec §6), block cipher abstracted. -/
def cbcDecrypt (decB : List Nat → List Nat) (iv bytes : List Nat) : List Nat :=
  (cbcDecAux decB iv (blocks16 bytes)).join

/-- PKCS#7 padding to a multiple of 16. -/
def pad16 (l : List Nat) : List Nat :=
  let k := 16 - l.length % 16
  l ++ List.replicate k k

/-- PKCS#7 unpadding: the last byte names the pad length, every pad byte
must equal it. -/
def unpad16 (l : List Nat) : Option (List Nat) :=
  match l.getLast? with
  | none => none
  | some k =>
      if 1 ≤ k ∧ k ≤ 16 ∧ k ≤ l.length ∧ (l.drop (l.length - k)).all (fun x => x = k) then
        some (l.take (l.length - k))
      else none

/-- Big-endian 32-bit length field. -/
def be32 (n : Nat) : List Nat :=
  [n / 16777216 % 256, n / 65536 % 256, n / 256 % 256, n % 256]

/-- Decode a big-endian 32-bit length field. -/
def be32dec : List Nat → Nat
  | [a, b, c, d] => a * 16777216 + b * 65536 + c * 256 + d
  | _ => 0

theorem be32_dec_enc (n : Nat) (h : n < 4294967296) : be32dec (be32 n) = n := by
  simp only [be32, be32dec]
  omega

theorem be32_valid (n : Nat) : validBytes (be32 n) := by
  intro x hx
  simp only [be32, List.mem_cons] at hx
  rcases hx with h | h | h | h | h <;> first | (subst h; omega) | cases h

theorem be32_length (n : Nat) : (be32 n).length = 4 := rfl

/-- Unpadding inverts padding. -/
theorem unpad16_pad16 (l : List Nat) : unpad16 (pad16 l) = some l := by
  have hk1 : 1 ≤ 16 - l.length % 16 := by omega
  have hk16 : 16 - l.length % 16 ≤ 16 := by omega
  have hlen : (pad16 l).length = l.length + (16 - l.length % 16) := by
    simp [pad16]
  have hlast : (pad16 l).getLast? = some (16 - l.length % 16) := by
    unfold pad16
    rw [List.getLast?_append_of_ne_nil]
    · rw [List.getLast?_replicate]
      simp only [if_neg (by omega : ¬ 16 - l.length % 16 = 0)]
    · intro hcon
      have := congrArg List.length hcon
      simp at this
      omega
  unfold unpad16
  rw [hlast]
  dsimp only
  rw [if_pos]
  · congr 1
    rw [hlen]
    have : l.length + (16 - l.length % 16) - (16 - l.length % 16) = l.length := by omega
    rw [this]
    simp [pad16, List.take_append_of_le_length]
  · refine ⟨hk1, hk16, by omega, ?_⟩
    rw [hlen]
    have : l.length + (16 - l.length % 16) - (16 - l.length % 16) = l.length := by omega
    rw [this]
    unfold pad16
    rw [List.drop_append_of_le_length (le_refl _)]
    simp only [List.drop_length, List.nil_append, List.all_eq_true]
    intro x hx
    simpa using (List.eq_of_mem_replicate hx)

/-- Padding produces a multiple of 16 of positive length with the byte
bound preserved. -/
theorem pad16_spec (l : List Nat) (hv : validBytes l) :
    (pad16 l).length % 16 = 0 ∧ 0 < (pad16 l).length ∧ validBytes (pad16 l) := by
  have hlen : (pad16 l).length = l.length + (16 - l.length % 16) := by
    simp [pad16]
  refine ⟨by omega, by omega, ?_⟩
  intro x hx
  unfold pad16 at hx
  rcases List.mem_append.mp hx with hx | hx
  · exact hv x hx
  · have := List.eq_of_mem_replicate hx
    omega

theorem blocks16Aux_append (blk : List Nat) (rest acc : List Nat)
    (hne : blk ≠ []) (hlen : acc.length + blk.length = 16) :
    blocks16Aux (blk ++ rest) acc = (acc.reverse ++ blk) :: blocks16Aux rest [] := by
  induction blk generalizing acc with
  | nil => exact absurd rfl hne
  | cons b blk2 ih =>
      cases blk2 with
      | nil =>
          have hacc : acc.length = 15 := by
            simp at hlen
            omega
          simp [blocks16Aux, hacc]
      | cons b2 blk3 =>
          have hacc : ¬ acc.length = 15 := by
            simp at hlen
            omega
          rw [List.cons_append, blocks16Aux, if_neg hacc]
          rw [ih (b :: acc) (by simp) (by simp at hlen ⊢; omega)]
          simp

theorem blocks16_flatten (bls : List (List Nat)) (h : ∀ b ∈ bls, b.length = 16) :
    blocks16 bls.flatten = bls := by
  induction bls with
  | nil => rfl
  | cons blk rest ih =>
      have h16 : blk.length = 16 := h blk (List.mem_cons_self _ _)
      rw [List.flatten_cons, blocks16, blocks16Aux_append blk rest.flatten []
        (by intro hc; rw [hc] at h16; simp at h16) (by simp [h16])]
      rw [show (([] : List Nat).reverse ++ blk) = blk by simp]
      rw [show blocks16Aux rest.flatten [] = blocks16 rest.flatten from rfl]
      rw [ih (fun b hb => h b (List.mem_cons_of_mem _ hb))]

theorem xorBlock_length (a b : List Nat) : (xorBlock a b).length = min a.length b.length := by
  simp [xorBlock]

theorem xorBlock_valid (a b : List Nat) (ha : validBytes a) (hb : validBytes b) :
    validBytes (xorBlock a b) := by
  induction a generalizing b with
  | nil => intro x hx; simp [xorBlock] at hx
  | cons a0 arest ih =>
      cases b with
      | nil => intro x hx; simp [xorBlock] at hx
      | cons b0 brest =>
          intro x hx
          rcases List.mem_cons.mp hx with hx | hx
          · subst hx
            have h1 : a0 < 2 ^ 8 := by
              simpa using ha a0 (List.mem_cons_self _ _)
            have h2 : b0 < 2 ^ 8 := by
              simpa using hb b0 (List.mem_cons_self _ _)
            simpa using Nat.xor_lt_two_pow h1 h2
          · exact ih brest (fun y hy => ha y (List.mem_cons_of_mem _ hy))
              (fun y hy => hb y (List.mem_cons_of_mem _ hy)) x hx

theorem xorBlock_cancel (a b : List Nat) (h : a.length = b.length) :
    xorBlock (xorBlock a b) b = a := by
  induction a generalizing b with
  | nil =>
      cases b with
      | nil => rfl
      | cons b0 brest => simp at h
  | cons a0 arest ih =>
      cases b with
      | nil => simp at h
      | cons b0 brest =>
          have hstep : xorBlock (xorBlock (a0 :: arest) (b0 :: brest)) (b0 :: brest) =
              ((a0 ^^^ b0) ^^^ b0) :: xorBlock (xorBlock arest brest) brest := rfl
          rw [hstep, Nat.xor_cancel_right, ih brest (by simpa using h)]

/-- The invertibility the spec's AES-256 block function provides: on a
valid 16-byte block, encryption is length- and byte-preserving and the
decryption function inverts it. -/
def GoodCipher (encB decB : List Nat → List Nat) : Prop :=
  ∀ b : List Nat, b.length = 16 → validBytes b →
    (encB b).length = 16 ∧ validBytes (encB b) ∧ decB (encB b) = b

theorem cbcDecAux_cbcEncAux (encB decB : List Nat → List Nat)
    (hgood : GoodCipher encB decB) (bls : List (List Nat)) :
    ∀ prev, (∀ b ∈ bls, b.length = 16 ∧ validBytes b) →
      prev.length = 16 → validBytes prev →
      cbcDecAux decB prev (cbcEncAux encB prev bls) = bls := by
  induction bls with
  | nil => intro prev _ _ _; rfl
  | cons blk rest ih =>
      intro prev hb hp hpv
      obtain ⟨h16, hbv⟩ := hb blk (List.mem_cons_self _ _)
      have hxlen : (xorBlock blk prev).length = 16 := by
        rw [xorBlock_length, h16, hp]
        simp
      have hxv : validBytes (xorBlock blk prev) := xorBlock_valid _ _ hbv hpv
      obtain ⟨hclen, hcv, hcdec⟩ := hgood (xorBlock blk prev) hxlen hxv
      simp only [cbcEncAux, cbcDecAux]
      rw [hcdec, xorBlock_cancel blk prev (by rw [h16, hp])]
      rw [ih (encB (xorBlock blk prev))
        (fun b hbm => hb b (List.mem_cons_of_mem _ hbm)) hclen hcv]

theorem cbcEncAux_spec (encB decB : List Nat → List Nat)
    (hgood : GoodCipher encB decB) (bls : List (List Nat)) :
    ∀ prev, (∀ b ∈ bls, b.length = 16 ∧ validBytes b) →
      prev.length = 16 → validBytes prev →
      ∀ cb ∈ cbcEncAux encB prev bls, cb.length = 16 ∧ validBytes cb := by
  induction bls with
  | nil => intro prev _ _ _ cb hcb; simp [cbcEncAux] at hcb
  | cons blk rest ih =>
      intro prev hb hp hpv cb hcb
      obtain ⟨h16, hbv⟩ := hb blk (List.mem_cons_self _ _)
      have hxlen : (xorBlock blk prev).length = 16 := by
        rw [xorBlock_length, h16, hp]
        simp
      have hxv : validBytes (xorBlock blk prev) := xorBlock_valid _ _ hbv hpv
      obtain ⟨hclen, hcv, _⟩ := hgood (xorBlock blk prev) hxlen hxv
      simp only [cbcEncAux] at hcb
      rcases List.mem_cons.mp hcb with hcb | hcb
      · rw [hcb]
        exact ⟨hclen, hcv⟩
      · exact ih (encB (xorBlock blk prev))
          (fun b hbm => hb b (List.mem_cons_of_mem _ hbm)) hclen hcv cb hcb

theorem blocks16_split (l : List Nat) (h16 : 16 ≤ l.length) :
    blocks16 l = l.take 16 :: blocks16 (l.drop 16) := by
  have htl : (l.take 16).length = 16 := by
    rw [List.length_take]
    omega
  have hne : l.take 16 ≠ [] := by
    intro hc
    rw [hc] at htl
    simp at htl
  conv_lhs => rw [← List.take_append_drop 16 l]
  unfold blocks16
  rw [blocks16Aux_append (l.take 16) (l.drop 16) [] hne (by simp [htl])]
  simp

theorem blocks16_spec_fuel : ∀ (n : Nat) (l : List Nat), l.length ≤ n →
    l.length % 16 = 0 → validBytes l →
    ∀ b ∈ blocks16 l, b.length = 16 ∧ validBytes b := by
  intro n
  induction n with
  | zero =>
      intro l hl _ _ b hb
      have : l = [] := List.eq_nil_of_length_eq_zero (by omega)
      rw [this] at hb
      simp [blocks16, blocks16Aux] at hb
  | succ n ih =>
      intro l hl hm hv b hb
      by_cases hnil : l = []
      · rw [hnil] at hb
        simp [blocks16, blocks16Aux] at hb
      · have hlen16 : 16 ≤ l.length := by
          have : 0 < l.length := List.length_pos.mpr hnil
          omega
        rw [blocks16_split l hlen16] at hb
        rcases List.mem_cons.mp hb with hb | hb
        · rw [hb]
          constructor
          · rw [List.length_take]
            omega
          · intro x hx
            exact hv x ((List.take_sublist _ _).mem hx)
        · refine ih (l.drop 16) (by simp; omega) (by simp; omega) ?_ b hb
          intro x hx
          exact hv x ((List.drop_sublist _ _).mem hx)

theorem blocks16_spec (l : List Nat) (hm : l.length % 16 = 0) (hv : validBytes l) :
    ∀ b ∈ blocks16 l, b.length = 16 ∧ validBytes b :=
  blocks16_spec_fuel l.length l (le_refl _) hm hv

theorem blocks16_flatten_inv_fuel : ∀ (n : Nat) (l : List Nat), l.length ≤ n →
    l.length % 16 = 0 → (blocks16 l).flatten = l := by
  intro n
  induction n with
  | zero =>
      intro l hl _
      have : l = [] := List.eq_nil_of_length_eq_zero (by omega)
      rw [this]
      rfl
  | succ n ih =>
      intro l hl hm
      by_cases hnil : l = []
      · rw [hnil]
        rfl
      · have hlen16 : 16 ≤ l.length := by
          have : 0 < l.length := List.length_pos.mpr hnil
          omega
        rw [blocks16_split l hlen16, List.flatten_cons]
        rw [ih (l.drop 16) (by simp; omega) (by simp; omega)]
        exact List.take_append_drop 16 l

theorem blocks16_flatten_inv (l : List Nat) (hm : l.length % 16 = 0) :
    (blocks16 l).flatten = l :=
  blocks16_flatten_inv_fuel l.length l (le_refl _) hm

theorem flatten_len16_mod (bls : List (List Nat)) (h : ∀ b ∈ bls, b.length = 16) :
    bls.flatten.length % 16 = 0 := by
  induction bls with
  | nil => simp
  | cons blk rest ih =>
      have hih := ih (fun b hb => h b (List.mem_cons_of_mem _ hb))
      rw [List.flatten_cons, List.length_append, h blk (List.mem_cons_self _ _)]
      omega

theorem flatten_valid (bls : List (List Nat)) (h : ∀ b ∈ bls, validBytes b) :
    validBytes bls.flatten := by
  intro x hx
  rw [List.mem_flatten] at hx
  obtain ⟨b, hb, hxb⟩ := hx
  exact h b hb x hxb

/-- CBC decryption inverts CBC encryption on padded valid input. -/
theorem cbcDecrypt_cbcEncrypt (encB decB : List Nat → List Nat)
    (hgood : GoodCipher encB decB) (iv bytes : List Nat)
    (hiv : iv.length = 16) (hivv : validBytes iv)
    (hm : bytes.length % 16 = 0) (hv : validBytes bytes) :
    cbcDecrypt decB iv (cbcEncrypt encB iv bytes) = bytes := by
  unfold cbcDecrypt cbcEncrypt
  have hspec := blocks16_spec bytes hm hv
  have hcspec := cbcEncAux_spec encB decB hgood (blocks16 bytes) iv hspec hiv hivv
  rw [blocks16_flatten _ (fun b hb => (hcspec b hb).1)]
  rw [cbcDecAux_cbcEncAux encB decB hgood (blocks16 bytes) iv hspec hiv hivv]
  exact blocks16_flatten_inv bytes hm

/-- The standard base64 alphabet. -/
def b64Table : List Char :=
  "ABCDEFGHIJKLMNOPQRSTUVWXYZabcdefghijklmnopqrstuvwxyz0123456789+/".toList

/-- The character encoding a 6-bit value. -/
def b64Char (n : Nat) : Char := b64Table.getD n 'A'

/-- The 6-bit value of an alphabet character. -/
def b64Val (c : Char) : Option Nat :=
  let i := b64Table.indexOf c
  if i < 64 then some i else none

/-- base64-encode in 3-byte groups (standard '=' padding). -/
def b64encodeChunks : List Nat → List Char
  | [] => []
  | [a] =>
      let n := a * 65536
      [b64Char (n / 262144), b64Char (n / 4096 % 64), '=', '=']
  | [a, b] =>
      let n := a * 65536 + b * 256
      [b64Char (n / 262144), b64Char (n / 4096 % 64), b64Char (n / 64 % 64), '=']
  | a :: b :: c :: rest =>
      let n := a * 65536 + b * 256 + c
      b64Char (n / 262144) :: b64Char (n / 4096 % 64) :: b64Char (n / 64 % 64) ::
        b64Char (n % 64) :: b64encodeChunks rest

/-- base64-encode a byte list. -/
def b64encode (bs : List Nat) : String := String.mk (b64encodeChunks bs)

/-- base64-decode in 4-character groups. -/
def b64decodeChunks : List Char → Option (List Nat)
  | [] => some []
  | c1 :: c2 :: c3 :: c4 :: rest =>
      (match b64Val c1, b64Val c2 with
       | some v1, some v2 =>
          if c3 = '=' then
            if c4 = '=' ∧ rest = [] then some [v1 * 4 + v2 / 16] else none
          else
            (match b64Val c3 with
             | some v3 =>
                if c4 = '=' then
                  if rest = [] then some [v1 * 4 + v2 / 16, v2 % 16 * 16 + v3 / 4]
                  else none
                else
                  (match b64Val c4, b64decodeChunks rest with
                   | some v4, some bs =>
                      some ((v1 * 4 + v2 / 16) :: (v2 % 16 * 16 + v3 / 4) ::
                        (v3 % 4 * 64 + v4) :: bs)
                   | _, _ => none)
             | none => none)
       | _, _ => none)
  | _ => none

/-- base64-decode a string. -/
def b64decode (s : String) : Option (List Nat) := b64decodeChunks s.toList

theorem b64Val_b64Char : ∀ v : Fin 64, b64Val (b64Char v.val) = some v.val := by
  decide

theorem b64Char_ne_eq : ∀ v : Fin 64, ¬ b64Char v.val = '=' := by
  decide

theorem b64Val_of_lt (v : Nat) (h : v < 64) : b64Val (b64Char v) = some v :=
  b64Val_b64Char ⟨v, h⟩

theorem b64Char_ne_eq_of_lt (v : Nat) (h : v < 64) : ¬ b64Char v = '=' :=
  b64Char_ne_eq ⟨v, h⟩

/-- Decoding inverts encoding on valid bytes. -/
theorem b64decode_b64encode (bs : List Nat) (hv : validBytes bs) :
    b64decodeChunks (b64encodeChunks bs) = some bs := by
  induction bs using b64encodeChunks.induct with
  | case1 => rfl
  | case2 a =>
      have ha : a < 256 := hv a (List.mem_cons_self _ _)
      have e1 : b64Val (b64Char (a * 65536 / 262144)) = some (a * 65536 / 262144) :=
        b64Val_of_lt _ (by omega)
      have e2 : b64Val (b64Char (a * 65536 / 4096 % 64)) = some (a * 65536 / 4096 % 64) :=
        b64Val_of_lt _ (by omega)
      simp only [b64encodeChunks, b64decodeChunks, e1, e2]
      simp
      omega
  | case3 a b =>
      have ha : a < 256 := hv a (List.mem_cons_self _ _)
      have hb : b < 256 := hv b (List.mem_cons_of_mem _ (List.mem_cons_self _ _))
      have e1 : b64Val (b64Char ((a * 65536 + b * 256) / 262144)) =
          some ((a * 65536 + b * 256) / 262144) := b64Val_of_lt _ (by omega)
      have e2 : b64Val (b64Char ((a * 65536 + b * 256) / 4096 % 64)) =
          some ((a * 65536 + b * 256) / 4096 % 64) := b64Val_of_lt _ (by omega)
      have e3 : b64Val (b64Char ((a * 65536 + b * 256) / 64 % 64)) =
          some ((a * 65536 + b * 256) / 64 % 64) := b64Val_of_lt _ (by omega)
      have n3 : ¬ b64Char ((a * 65536 + b * 256) / 64 % 64) = '=' :=
        b64Char_ne_eq_of_lt _ (by omega)
      simp only [b64encodeChunks, b64decodeChunks, e1, e2, e3, if_neg n3]
      simp
      omega
  | case4 a b c rest ih =>
      have ha : a < 256 := hv a (List.mem_cons_self _ _)
      have hb : b < 256 := hv b (List.mem_cons_of_mem _ (List.mem_cons_self _ _))
      have hc : c < 256 := hv c
        (List.mem_cons_of_mem _ (List.mem_cons_of_mem _ (List.mem_cons_self _ _)))
      have hrest : validBytes rest := by
        intro x hx
        exact hv x (List.mem_cons_of_mem _ (List.mem_cons_of_mem _
          (List.mem_cons_of_mem _ hx)))
      have e1 : b64Val (b64Char ((a * 65536 + b * 256 + c) / 262144)) =
          some ((a * 65536 + b * 256 + c) / 262144) := b64Val_of_lt _ (by omega)
      have e2 : b64Val (b64Char ((a * 65536 + b * 256 + c) / 4096 % 64)) =
          some ((a * 65536 + b * 256 + c) / 4096 % 64) := b64Val_of_lt _ (by omega)
      have e3 : b64Val (b64Char ((a * 65536 + b * 256 + c) / 64 % 64)) =
          some ((a * 65536 + b * 256 + c) / 64 % 64) := b64Val_of_lt _ (by omega)
      have e4 : b64Val (b64Char ((a * 65536 + b * 256 + c) % 64)) =
          some ((a * 65536 + b * 256 + c) % 64) := b64Val_of_lt _ (by omega)
      have n3 : ¬ b64Char ((a * 65536 + b * 256 + c) / 64 % 64) = '=' :=
        b64Char_ne_eq_of_lt _ (by omega)
      have n4 : ¬ b64Char ((a * 65536 + b * 256 + c) % 64) = '=' :=
        b64Char_ne_eq_of_lt _ (by omega)
      simp only [b64encodeChunks, b64decodeChunks, e1, e2, e3, e4, if_neg n3, if_neg n4,
        ih hrest]
      simp
      omega

/-- The JSON fragment the envelope payloads use: strings, booleans and
objects (numbers, arrays and null do not occur in the stream-reply
payload). -/
inductive Json where
  | str : String → Json
  | bool : Bool → Json
  | obj : List (String × Json) → Json

/-- A quoted JSON string literal (safe strings need no escaping). -/
def quoteChars (s : String) : List Char :=
  '"' :: s.toList ++ ['"']

mutual

/-- Serialize a JSON value (Go `encoding/json` layout for the payload
fragment: no whitespace, fields in struct order). -/
def serializeJson : Json → List Char
  | Json.str s => quoteChars s
  | Json.bool b => if b then "true".toList else "false".toList
  | Json.obj fields => Char.ofNat 123 :: serializeFields fields ++ [Char.ofNat 125]

/-- Serialize the members of a JSON object, comma-separated. -/
def serializeFields : List (String × Json) → List Char
  | [] => []
  | [(k, v)] => quoteChars k ++ ':' :: serializeJson v
  | (k, v) :: rest => quoteChars k ++ ':' :: serializeJson v ++ ',' :: serializeFields rest

end

/-- Parse a JSON string literal: an opening quote, the body up to the
next quote, the closing quote. -/
def parseStringLit (input : List Char) : Option (String × List Char) :=
  if input.take 1 = ['"'] then
    if (((input.drop 1).dropWhile (fun d => ¬ d = '"')).take 1 : List Char) = ['"'] then
      some (String.mk ((input.drop 1).takeWhile (fun d => ¬ d = '"')),
            ((input.drop 1).dropWhile (fun d => ¬ d = '"')).drop 1)
    else none
  else none

mutual

/-- Parse a JSON value (`fuel` bounds the recursion depth; one unit per
nested construct suffices for any input at least as long as its
serialization). -/
def parseJson : Nat → List Char → Option (Json × List Char)
  | 0, _ => none
  | fuel + 1, input =>
      if input.take 1 = ['"'] then
        (parseStringLit input).map (fun p => (Json.str p.1, p.2))
      else if input.take 1 = [Char.ofNat 123] then
        (if ((input.drop 1).take 1 : List Char) = [Char.ofNat 125] then
          some (Json.obj [], input.drop 2)
         else
          (parseMembers fuel (input.drop 1)).map (fun p => (Json.obj p.1, p.2)))
      else if input.take 4 = "true".toList then some (Json.bool true, input.drop 4)
      else if input.take 5 = "false".toList then some (Json.bool false, input.drop 5)
      else none

/-- Parse the members of a JSON object up to and including the closing
brace: a quoted key, a colon, a value, then a comma and further members
or the closing brace. -/
def parseMembers : Nat → List Char → Option (List (String × Json) × List Char)
  | 0, _ => none
  | fuel + 1, input =>
      (parseStringLit input).bind (fun kp =>
        if kp.2.take 1 = [':'] then
          (parseJson fuel (kp.2.drop 1)).bind (fun vp =>
            if vp.2.take 1 = [','] then
              (parseMembers fuel (vp.2.drop 1)).map
                (fun fp => ((kp.1, vp.1) :: fp.1, fp.2))
            else if vp.2.take 1 = [Char.ofNat 125] then
              some ([(kp.1, vp.1)], vp.2.drop 1)
            else none)
        else none)

end

/-- A string Go's JSON encoder emits verbatim: printable ASCII without
quote or backslash. -/
def SafeStr (s : String) : Prop :=
  ∀ c ∈ s.toList, 32 ≤ c.toNat ∧ c.toNat < 127 ∧ ¬ c = '"' ∧ ¬ c = '\\'

mutual

/-- Every string inside the value is safe. -/
inductive SafeJson : Json → Prop where
  | str : ∀ s, SafeStr s → SafeJson (Json.str s)
  | bool : ∀ b, SafeJson (Json.bool b)
  | obj : ∀ fields, SafeFields fields → SafeJson (Json.obj fields)

/-- Every key and value in the member list is safe. -/
inductive SafeFields : List (String × Json) → Prop where
  | nil : SafeFields []
  | cons : ∀ k v rest, SafeStr k → SafeJson v → SafeFields rest →
      SafeFields ((k, v) :: rest)

end

theorem takeWhile_append_fail {α : Type} (l : List α) (p : α → Bool) (c : α)
    (l2 : List α) (hall : ∀ x ∈ l, p x = true) (hc : p c = false) :
    (l ++ c :: l2).takeWhile p = l ∧ (l ++ c :: l2).dropWhile p = c :: l2 := by
  induction l with
  | nil => simp [List.takeWhile, List.dropWhile, hc]
  | cons a rest ih =>
      have hpa : p a = true := hall a (List.mem_cons_self _ _)
      have hr := ih (fun x hx => hall x (List.mem_cons_of_mem _ hx))
      simp [List.takeWhile_cons, List.dropWhile_cons, hpa, hr.1, hr.2]

theorem take_one_cons {α : Type} (a : α) (l : List α) : List.take 1 (a :: l) = [a] :=
  rfl

theorem drop_one_cons {α : Type} (a : α) (l : List α) : List.drop 1 (a :: l) = l :=
  rfl

/-- Parsing a quoted safe string recovers it exactly. -/
theorem parseStringLit_quote (s : String) (rest : List Char) (hs : SafeStr s) :
    parseStringLit (quoteChars s ++ rest) = some (s, rest) := by
  have hall : ∀ x ∈ s.toList, (fun d => decide (¬ d = '"')) x = true := by
    intro x hx
    have := (hs x hx).2.2.1
    simpa using this
  have hq : (fun d => decide (¬ d = '"')) '"' = false := by simp
  have htd := takeWhile_append_fail s.toList (fun d => decide (¬ d = '"')) '"' rest hall hq
  have hsh : quoteChars s ++ rest = '"' :: (s.toList ++ '"' :: rest) := by
    simp [quoteChars]
  rw [hsh]
  unfold parseStringLit
  simp only [take_one_cons, drop_one_cons]
  rw [htd.1, htd.2]
  simp only [take_one_cons, drop_one_cons]
  rw [if_pos trivial, if_pos trivial]
  rfl

/-- One step of the parser on a serialized string value. -/
theorem parseJson_succ_quote (fuel : Nat) (s : String) (rest : List Char)
    (hs : SafeStr s) :
    parseJson (fuel + 1) (quoteChars s ++ rest) = some (Json.str s, rest) := by
  have hsh : quoteChars s ++ rest = '"' :: (s.toList ++ '"' :: rest) := by
    simp [quoteChars]
  simp only [parseJson]
  rw [hsh]
  simp only [take_one_cons]
  rw [if_pos trivial, ← hsh, parseStringLit_quote s rest hs]
  rfl

/-- One step of the parser on the serialized boolean literals. -/
theorem parseJson_succ_bool (fuel : Nat) (b : Bool) (rest : List Char) :
    parseJson (fuel + 1) (serializeJson (Json.bool b) ++ rest) =
      some (Json.bool b, rest) := by
  cases b with
  | true =>
      have hsh : serializeJson (Json.bool true) = "true".toList := by
        simp [serializeJson]
      rw [hsh]
      show parseJson (fuel + 1) ('t' :: 'r' :: 'u' :: 'e' :: rest) = _
      simp only [parseJson]
      rfl
  | false =>
      have hsh : serializeJson (Json.bool false) = "false".toList := by
        simp [serializeJson]
      rw [hsh]
      show parseJson (fuel + 1) ('f' :: 'a' :: 'l' :: 's' :: 'e' :: rest) = _
      simp only [parseJson]
      rfl

/-- One step of the parser on the serialized empty object. -/
theorem parseJson_succ_obj_nil (fuel : Nat) (rest : List Char) :
    parseJson (fuel + 1) (serializeJson (Json.obj []) ++ rest) =
      some (Json.obj [], rest) := by
  have hsh : serializeJson (Json.obj []) ++ rest
      = Char.ofNat 123 :: Char.ofNat 125 :: rest := by
    simp [serializeJson, serializeFields]
  rw [hsh]
  simp only [parseJson]
  rfl

/-- One step of the parser on a serialized non-empty object, given that
the member parser recovers the members. -/
theorem parseJson_succ_obj_cons (fuel : Nat) (k : String) (v : Json)
    (tl : List (String × Json)) (rest : List Char)
    (hmem : parseMembers fuel (serializeFields ((k, v) :: tl) ++ Char.ofNat 125 :: rest)
        = some ((k, v) :: tl, rest)) :
    parseJson (fuel + 1) (serializeJson (Json.obj ((k, v) :: tl)) ++ rest)
      = some (Json.obj ((k, v) :: tl), rest) := by
  have hhead : ∃ t, serializeFields ((k, v) :: tl) = '"' :: t := by
    cases tl with
    | nil =>
        exact ⟨k.toList ++ '"' :: ':' :: serializeJson v,
          by simp [serializeFields, quoteChars]⟩
    | cons p tl2 =>
        exact ⟨k.toList ++ '"' :: ':' ::
            (serializeJson v ++ ',' :: serializeFields (p :: tl2)),
          by simp [serializeFields, quoteChars]⟩
  obtain ⟨t, ht⟩ := hhead
  have hsh : serializeJson (Json.obj ((k, v) :: tl)) ++ rest
      = Char.ofNat 123 :: (serializeFields ((k, v) :: tl) ++ Char.ofNat 125 :: rest) := by
    simp [serializeJson]
  rw [hsh, ht]
  simp only [List.cons_append]
  simp only [parseJson, take_one_cons, drop_one_cons]
  rw [if_pos trivial, if_neg (by decide)]
  rw [← List.cons_append, ← ht, hmem]
  rfl

/-- One step of the member parser on a single serialized member followed
by the closing brace. -/
theorem parseMembers_succ_single (fuel : Nat) (k : String) (v : Json)
    (rest : List Char) (hk : SafeStr k)
    (hv : parseJson fuel (serializeJson v ++ Char.ofNat 125 :: rest)
        = some (v, Char.ofNat 125 :: rest)) :
    parseMembers (fuel + 1) (serializeFields [(k, v)] ++ Char.ofNat 125 :: rest)
      = some ([(k, v)], rest) := by
  have hsh : serializeFields [(k, v)] ++ Char.ofNat 125 :: rest
      = quoteChars k ++ (':' :: (serializeJson v ++ Char.ofNat 125 :: rest)) := by
    simp [serializeFields]
  rw [hsh]
  simp only [parseMembers]
  rw [parseStringLit_quote k _ hk]
  simp only [Option.some_bind]
  simp only [take_one_cons, drop_one_cons]
  rw [if_pos trivial, hv]
  simp only [Option.some_bind]
  simp only [take_one_cons, drop_one_cons]
  rw [if_neg (by decide), if_pos trivial]

/-- One step of the member parser on a serialized member followed by a
comma and further members. -/
theorem parseMembers_succ_cons (fuel : Nat) (k : String) (v : Json)
    (p : String × Json) (tl : List (String × Json)) (rest : List Char)
    (hk : SafeStr k)
    (hv : parseJson fuel
        (serializeJson v ++ ',' :: (serializeFields (p :: tl) ++ Char.ofNat 125 :: rest))
        = some (v, ',' :: (serializeFields (p :: tl) ++ Char.ofNat 125 :: rest)))
    (hrest : parseMembers fuel (serializeFields (p :: tl) ++ Char.ofNat 125 :: rest)
        = some (p :: tl, rest)) :
    parseMembers (fuel + 1) (serializeFields ((k, v) :: p :: tl) ++ Char.ofNat 125 :: rest)
      = some ((k, v) :: p :: tl, rest) := by
  have hsh : serializeFields ((k, v) :: p :: tl) ++ Char.ofNat 125 :: rest
      = quoteChars k ++ (':' ::
          (serializeJson v ++ ',' :: (serializeFields (p :: tl) ++ Char.ofNat 125 :: rest))) := by
    simp [serializeFields]
  rw [hsh]
  simp only [parseMembers]
  rw [parseStringLit_quote k _ hk]
  simp only [Option.some_bind]
  simp only [take_one_cons, drop_one_cons]
  rw [if_pos trivial, hv]
  simp only [Option.some_bind]
  simp only [take_one_cons, drop_one_cons]
  rw [if_pos trivial, hrest]
  rfl

/-- Parsing inverts serialization for safe values, jointly with object
member lists, by induction on the fuel. -/
theorem parse_serialize_fuel : ∀ fuel : Nat,
    (∀ v rest, SafeJson v → (serializeJson v).length < fuel →
      parseJson fuel (serializeJson v ++ rest) = some (v, rest)) ∧
    (∀ fields rest, fields ≠ [] → SafeFields fields →
      (serializeFields fields).length < fuel →
      parseMembers fuel (serializeFields fields ++ Char.ofNat 125 :: rest) =
        some (fields, rest)) := by
  intro fuel
  induction fuel with
  | zero =>
      constructor
      · intro v rest _ hlen
        exact absurd hlen (by omega)
      · intro fields rest _ _ hlen
        exact absurd hlen (by omega)
  | succ fuel ih =>
      constructor
      · intro v rest hsafe hlen
        cases v with
        | str s =>
            cases hsafe with
            | str _ hs => exact parseJson_succ_quote fuel s rest hs
        | bool b => exact parseJson_succ_bool fuel b rest
        | obj fields =>
            cases hsafe with
            | obj _ hf =>
                cases fields with
                | nil => exact parseJson_succ_obj_nil fuel rest
                | cons kv tl =>
                    obtain ⟨k, v⟩ := kv
                    have hlen2 : (serializeFields ((k, v) :: tl)).length < fuel := by
                      have hobj : (serializeJson (Json.obj ((k, v) :: tl))).length
                          = (serializeFields ((k, v) :: tl)).length + 2 := by
                        simp [serializeJson]
                      omega
                    exact parseJson_succ_obj_cons fuel k v tl rest
                      (ih.2 ((k, v) :: tl) rest (by simp) hf hlen2)
      · intro fields rest hne hsafe hlen
        cases fields with
        | nil => exact absurd rfl hne
        | cons kv tl =>
            obtain ⟨k, v⟩ := kv
            cases hsafe with
            | cons _ _ _ hk hv hsf =>
                cases tl with
                | nil =>
                    have hlenv : (serializeJson v).length < fuel := by
                      have hone : (serializeFields [(k, v)]).length
                          = k.toList.length + 3 + (serializeJson v).length := by
                        simp [serializeFields, quoteChars]
                        omega
                      omega
                    exact parseMembers_succ_single fuel k v rest hk
                      (ih.1 v (Char.ofNat 125 :: rest) hv hlenv)
                | cons p tl2 =>
                    have hlens : (serializeFields ((k, v) :: p :: tl2)).length
                        = k.toList.length + 4 + (serializeJson v).length
                          + (serializeFields (p :: tl2)).length := by
                      simp [serializeFields, quoteChars]
                      omega
                    have hlenv : (serializeJson v).length < fuel := by omega
                    have hlenr : (serializeFields (p :: tl2)).length < fuel := by omega
                    exact parseMembers_succ_cons fuel k v p tl2 rest hk
                      (ih.1 v (',' :: (serializeFields (p :: tl2) ++ Char.ofNat 125 :: rest))
                        hv hlenv)
                      (ih.2 (p :: tl2) rest (by simp) hsf hlenr)

/-- Every character of a quoted safe string is plain ASCII. -/
theorem quoteChars_lt (s : String) (hs : SafeStr s) :
    ∀ ch ∈ quoteChars s, ch.toNat < 128 := by
  intro ch hch
  have hch2 : ch ∈ ('"' :: (s.toList ++ ['"'])) := hch
  rcases List.mem_cons.mp hch2 with h | h
  · subst h
    decide
  rcases List.mem_append.mp h with h | h
  · have := (hs ch h).2.1
    omega
  rcases List.mem_cons.mp h with h | h
  · subst h
    decide
  · cases h

/-- Every character the serializer emits for a safe value is plain
ASCII (so its code point fits one byte), jointly with member lists. -/
theorem serialize_chars_fuel : ∀ fuel : Nat,
    (∀ v, SafeJson v → (serializeJson v).length < fuel →
      ∀ ch ∈ serializeJson v, ch.toNat < 128) ∧
    (∀ fields, SafeFields fields → (serializeFields fields).length < fuel →
      ∀ ch ∈ serializeFields fields, ch.toNat < 128) := by
  intro fuel
  induction fuel with
  | zero =>
      constructor
      · intro v _ hlen
        exact absurd hlen (by omega)
      · intro fields _ hlen
        exact absurd hlen (by omega)
  | succ fuel ih =>
      constructor
      · intro v hsafe hlen ch hch
        cases v with
        | str s =>
            cases hsafe with
            | str _ hs =>
                have hq : serializeJson (Json.str s) = quoteChars s := by
                  simp [serializeJson]
                rw [hq] at hch
                exact quoteChars_lt s hs ch hch
        | bool b =>
            cases b with
            | true =>
                have hq : serializeJson (Json.bool true) = "true".toList := by
                  simp [serializeJson]
                rw [hq] at hch
                have hall : ∀ d ∈ "true".toList, Char.toNat d < 128 := by decide
                exact hall ch hch
            | false =>
                have hq : serializeJson (Json.bool false) = "false".toList := by
                  simp [serializeJson]
                rw [hq] at hch
                have hall : ∀ d ∈ "false".toList, Char.toNat d < 128 := by decide
                exact hall ch hch
        | obj fields =>
            cases hsafe with
            | obj _ hf =>
                have hq : serializeJson (Json.obj fields)
                    = Char.ofNat 123 :: (serializeFields fields ++ [Char.ofNat 125]) := by
                  simp [serializeJson]
                rw [hq] at hch
                have hlen2 : (serializeFields fields).length < fuel := by
                  have hobj : (serializeJson (Json.obj fields)).length
                      = (serializeFields fields).length + 2 := by
                    simp [serializeJson]
                  omega
                rcases List.mem_cons.mp hch with h | h
                · subst h
                  decide
                rcases List.mem_append.mp h with h | h
                · exact ih.2 fields hf hlen2 ch h
                rcases List.mem_cons.mp h with h | h
                · subst h
                  decide
                · cases h
      · intro fields hsafe hlen ch hch
        cases fields with
        | nil =>
            have hq : serializeFields ([] : List (String × Json)) = [] := by
              simp [serializeFields]
            rw [hq] at hch
            cases hch
        | cons kv tl =>
            obtain ⟨k, v⟩ := kv
            cases hsafe with
            | cons _ _ _ hk hv hsf =>
                cases tl with
                | nil =>
                    have hq : serializeFields [(k, v)]
                        = quoteChars k ++ (':' :: serializeJson v) := by
                      simp [serializeFields]
                    rw [hq] at hch
                    have hlenv : (serializeJson v).length < fuel := by
                      have hone : (serializeFields [(k, v)]).length
                          = (quoteChars k).length + 1 + (serializeJson v).length := by
                        simp [serializeFields]
                        omega
                      omega
                    rcases List.mem_append.mp hch with h | h
                    · exact quoteChars_lt k hk ch h
                    rcases List.mem_cons.mp h with h | h
                    · subst h
                      decide
                    · exact ih.1 v hv hlenv ch h
                | cons p tl2 =>
                    have hq : serializeFields ((k, v) :: p :: tl2)
                        = quoteChars k ++ (':' ::
                            (serializeJson v ++ (',' :: serializeFields (p :: tl2)))) := by
                      simp [serializeFields]
                    rw [hq] at hch
                    have hlens : (serializeFields ((k, v) :: p :: tl2)).length
                        = (quoteChars k).length + 2 + (serializeJson v).length
                          + (serializeFields (p :: tl2)).length := by
                      simp [serializeFields]
                      omega
                    have hlenv : (serializeJson v).length < fuel := by omega
                    have hlenr : (serializeFields (p :: tl2)).length < fuel := by omega
                    rcases List.mem_append.mp hch with h | h
                    · exact quoteChars_lt k hk ch h
                    rcases List.mem_cons.mp h with h | h
                    · subst h
                      decide
                    rcases List.mem_append.mp h with h | h
                    · exact ih.1 v hv hlenv ch h
                    rcases List.mem_cons.mp h with h | h
                    · subst h
                      decide
                    · exact ih.2 (p :: tl2) hsf hlenr ch h

/-- Modelled from the spec: the wecom `Crypt` object after `NewCrypt`
has decoded the base64 key; the AES-256 block functions and the
hex-SHA-1 digest are carried as parameters (see the section header). -/
structure Crypt where
  token : String := ""
  key : List Nat := []
  corpID : String := ""
  encB : List Nat → List Nat
  decB : List Nat → List Nat
  hash : String → String

/-- Modelled from the spec: signature = digest of the concatenation of
the ascending sort of {token, timestamp, nonce, ciphertext} (§6). -/
def calcSignature (c : Crypt) (ts nonce cipher : String) : String :=
  c.hash (String.join (List.mergeSort [c.token, ts, nonce, cipher] (fun a b => a ≤ b)))

/-- Modelled from the spec: the inbound envelope body. -/
structure EncryptedRequest where
  Encrypt : String := ""

/-- Modelled from the spec: the outbound envelope. -/
structure EncryptedResponse where
  Encrypt : String := ""
  MsgSignature : String := ""
  Timestamp : String := ""
  Nonce : String := ""

/-- The JSON value Go marshals a StreamReply to (§6 outbound shape). -/
def streamReplyJson (r : StreamReply) : Json :=
  Json.obj [("msgtype", Json.str r.MsgType),
            ("stream", Json.obj [("id", Json.str r.Stream.ID),
                                 ("finish", Json.bool r.Stream.Finish),
                                 ("content", Json.str r.Stream.Content)])]

/-- The string carried by a JSON string value. -/
def strOfJson : Json → Option String
  | Json.str s => some s
  | _ => none

/-- The boolean carried by a JSON boolean value. -/
def boolOfJson : Json → Option Bool
  | Json.bool b => some b
  | _ => none

/-- The stream section of a decrypted message (the fields the core
consumes: id, finish, content). -/
def streamOfJson (j : Json) : Option StreamPayload :=
  match j with
  | Json.obj fields =>
      ((alookup fields "id").bind strOfJson).bind (fun sid =>
        ((alookup fields "finish").bind boolOfJson).bind (fun fin =>
          ((alookup fields "content").bind strOfJson).map (fun content =>
            { ID := sid, Finish := fin, Content := content })))
  | _ => none

/-- Modelled from the spec: unmarshal the decrypted JSON payload into the
Message fields the core consumes (`msgtype`, and `stream.id` when
msgtype is "stream"). -/
def msgOfJson (j : Json) : Option Message :=
  match j with
  | Json.obj fields =>
      ((alookup fields "msgtype").bind strOfJson).bind (fun mt =>
        if mt = "stream" then
          ((alookup fields "stream").bind streamOfJson).map (fun sp =>
            { MsgType := mt, Stream := some sp })
        else some { MsgType := mt })
  | _ => none

/-- Modelled from the spec (§4.1, §6): JSON-serialize the reply, frame it
as `random16 ‖ uint32-BE length ‖ payload ‖ corpID`, PKCS#7-pad,
AES-CBC-encrypt under IV = first 16 key bytes, base64-encode, sign. The
16 random prefix bytes are an explicit parameter. -/
def EncryptResponse (c : Crypt) (r : StreamReply) (ts nonce : String)
    (rand16 : List Nat) : EncryptedResponse :=
  let payload := (serializeJson (streamReplyJson r)).map Char.toNat
  let cipher := b64encode (cbcEncrypt c.encB (c.key.take 16)
      (pad16 (rand16 ++ (be32 payload.length ++
        (payload ++ c.corpID.toList.map Char.toNat)))))
  { Encrypt := cipher
    MsgSignature := calcSignature c ts nonce cipher
    Timestamp := ts
    Nonce := nonce }

/-- Modelled from the spec: the envelope failure modes (§4.1). -/
inductive CryptErr where
  | badSignature
  | badPadding
  | badCorpID
  | badEncoding
deriving DecidableEq, Repr

/-- Sequence an optional intermediate result into the envelope error
monad, failing with the given error code when it is absent. -/
def obind {α β : Type} : Option α → CryptErr → (α → Except CryptErr β) →
    Except CryptErr β
  | none, e, _ => Except.error e
  | some a, _, f => f a

/-- Modelled from the spec (§4.1, §6): verify the signature over the
ciphertext, base64-decode, AES-CBC-decrypt, strip the PKCS#7 padding,
split the frame `random16 ‖ uint32-BE length ‖ payload ‖ corpID`,
validate the trailing corp-id, and unmarshal the payload. -/
def DecryptMessage (c : Crypt) (sig ts nonce : String) (req : EncryptedRequest) :
    Except CryptErr Message :=
  if ¬ sig = calcSignature c ts nonce req.Encrypt then
    Except.error CryptErr.badSignature
  else
    obind (b64decode req.Encrypt) CryptErr.badEncoding
      (fun cipherBytes =>
        obind (unpad16 (cbcDecrypt c.decB (c.key.take 16) cipherBytes))
          CryptErr.badPadding
          (fun frame =>
            if ¬ (frame.drop 20).drop (be32dec ((frame.drop 16).take 4))
                = c.corpID.toList.map Char.toNat then
              Except.error CryptErr.badCorpID
            else
              obind (parseJson
                    ((((frame.drop 20).take (be32dec ((frame.drop 16).take 4))).map
                      Char.ofNat).length + 1)
                    (((frame.drop 20).take (be32dec ((frame.drop 16).take 4))).map
                      Char.ofNat))
                CryptErr.badEncoding
                (fun pr =>
                  if ¬ pr.2 = [] then Except.error CryptErr.badEncoding
                  else obind (msgOfJson pr.1) CryptErr.badEncoding Except.ok)))

instance (s : String) : Decidable (SafeStr s) :=
  inferInstanceAs (Decidable (∀ c ∈ s.toList, 32 ≤ c.toNat ∧ c.toNat < 127 ∧
    ¬ c = '"' ∧ ¬ c = '\\'))

instance (l : List Nat) : Decidable (validBytes l) :=
  inferInstanceAs (Decidable (∀ x ∈ l, x < 256))

/-- Mapping a character list to code points and back is the identity. -/
theorem map_ofNat_toNat (l : List Char) :
    (l.map Char.toNat).map Char.ofNat = l := by
  induction l with
  | nil => rfl
  | cons a t ih => simp [ih, Char.ofNat_toNat]

/-- Decrypting an envelope whose ciphertext was produced by the modelled
encryption pipeline recovers the message unmarshalled from the payload,
when the key, the random prefix and the payload are well-formed. -/
theorem DecryptMessage_pipeline (c : Crypt) (v : Json) (m : Message)
    (ts nonce : String) (rand16 : List Nat)
    (hkey : c.key.length = 32) (hkeyv : validBytes c.key)
    (hgood : GoodCipher c.encB c.decB)
    (hr16 : rand16.length = 16) (hr16v : validBytes rand16)
    (hsafe : SafeJson v) (hcorp : SafeStr c.corpID)
    (hplen : (serializeJson v).length < 4294967296)
    (hmsg : msgOfJson v = some m) :
    DecryptMessage c
      (calcSignature c ts nonce (b64encode (cbcEncrypt c.encB (c.key.take 16)
        (pad16 (rand16 ++ (be32 ((serializeJson v).map Char.toNat).length ++
          ((serializeJson v).map Char.toNat ++ c.corpID.toList.map Char.toNat)))))))
      ts nonce
      { Encrypt := b64encode (cbcEncrypt c.encB (c.key.take 16)
        (pad16 (rand16 ++ (be32 ((serializeJson v).map Char.toNat).length ++
          ((serializeJson v).map Char.toNat ++ c.corpID.toList.map Char.toNat))))) }
      = Except.ok m := by
  have hivlen : (c.key.take 16).length = 16 := by
    rw [List.length_take, hkey]
    omega
  have hivv : validBytes (c.key.take 16) := by
    intro x hx
    exact hkeyv x ((List.take_sublist _ _).mem hx)
  have hpv : validBytes ((serializeJson v).map Char.toNat) := by
    intro x hx
    obtain ⟨ch, hch, hx2⟩ := List.mem_map.mp hx
    have := (serialize_chars_fuel ((serializeJson v).length + 1)).1 v hsafe
      (by omega) ch hch
    omega
  have hcv : validBytes (c.corpID.toList.map Char.toNat) := by
    intro x hx
    obtain ⟨ch, hch, hx2⟩ := List.mem_map.mp hx
    have := (hcorp ch hch).2.1
    omega
  have hfv : validBytes (rand16 ++ (be32 ((serializeJson v).map Char.toNat).length ++
      ((serializeJson v).map Char.toNat ++ c.corpID.toList.map Char.toNat))) := by
    intro x hx
    rcases List.mem_append.mp hx with h | h
    · exact hr16v x h
    rcases List.mem_append.mp h with h | h
    · exact be32_valid _ x h
    rcases List.mem_append.mp h with h | h
    · exact hpv x h
    · exact hcv x h
  have hpad := pad16_spec _ hfv
  have hbl := blocks16_spec _ hpad.1 hpad.2.2
  have hcb := cbcEncAux_spec c.encB c.decB hgood _ (c.key.take 16) hbl hivlen hivv
  have hcipherv : validBytes (cbcEncrypt c.encB (c.key.take 16)
      (pad16 (rand16 ++ (be32 ((serializeJson v).map Char.toNat).length ++
        ((serializeJson v).map Char.toNat ++ c.corpID.toList.map Char.toNat))))) := by
    unfold cbcEncrypt
    exact flatten_valid _ (fun b hb => (hcb b hb).2)
  have hb64 : b64decode (b64encode (cbcEncrypt c.encB (c.key.take 16)
      (pad16 (rand16 ++ (be32 ((serializeJson v).map Char.toNat).length ++
        ((serializeJson v).map Char.toNat ++ c.corpID.toList.map Char.toNat)))))) =
      some (cbcEncrypt c.encB (c.key.take 16)
        (pad16 (rand16 ++ (be32 ((serializeJson v).map Char.toNat).length ++
          ((serializeJson v).map Char.toNat ++ c.corpID.toList.map Char.toNat))))) :=
    b64decode_b64encode _ hcipherv
  have hdec := cbcDecrypt_cbcEncrypt c.encB c.decB hgood (c.key.take 16)
    (pad16 (rand16 ++ (be32 ((serializeJson v).map Char.toNat).length ++
      ((serializeJson v).map Char.toNat ++ c.corpID.toList.map Char.toNat))))
    hivlen hivv hpad.1 hpad.2.2
  have hd16 : (rand16 ++ (be32 ((serializeJson v).map Char.toNat).length ++
      ((serializeJson v).map Char.toNat ++ c.corpID.toList.map Char.toNat))).drop 16
      = be32 ((serializeJson v).map Char.toNat).length ++
        ((serializeJson v).map Char.toNat ++ c.corpID.toList.map Char.toNat) :=
    List.drop_left' hr16
  have hd20 : (rand16 ++ (be32 ((serializeJson v).map Char.toNat).length ++
      ((serializeJson v).map Char.toNat ++ c.corpID.toList.map Char.toNat))).drop 20
      = (serializeJson v).map Char.toNat ++ c.corpID.toList.map Char.toNat := by
    rw [show (20 : Nat) = 16 + 4 from rfl, ← List.drop_drop, hd16]
    exact List.drop_left' (be32_length _)
  have ht4 : (be32 ((serializeJson v).map Char.toNat).length ++
      ((serializeJson v).map Char.toNat ++ c.corpID.toList.map Char.toNat)).take 4
      = be32 ((serializeJson v).map Char.toNat).length :=
    List.take_left' (be32_length _)
  have hlen4 : be32dec (be32 ((serializeJson v).map Char.toNat).length)
      = ((serializeJson v).map Char.toNat).length :=
    be32_dec_enc ((serializeJson v).map Char.toNat).length
      (by simpa using hplen)
  have hparse : parseJson ((serializeJson v).length + 1) (serializeJson v)
      = some (v, []) := by
    have h := (parse_serialize_fuel ((serializeJson v).length + 1)).1 v [] hsafe
      (by omega)
    rwa [List.append_nil] at h
  unfold DecryptMessage
  rw [if_neg (not_not_intro rfl)]
  rw [hb64]
  simp only [obind]
  rw [hdec, unpad16_pad16]
  simp only [obind]
  rw [hd16, ht4, hlen4, hd20, List.take_left, List.drop_left]
  rw [if_neg (not_not_intro rfl)]
  rw [map_ofNat_toNat, hparse]
  simp only [obind]
  rw [hmsg]
  simp

/-- C9: EncryptResponse followed by DecryptMessage is the identity on
the payload's stream id and msg-type for every well-formed inbound:
decrypting the envelope produced for a stream reply, using the
envelope's own signature, timestamp and nonce, succeeds and yields a
message whose msgtype is "stream" and whose stream id is the reply's
stream id. -/
theorem encrypt_decrypt_roundtrip (c : Crypt) (r : StreamReply)
    (ts nonce : String) (rand16 : List Nat)
    (hkey : c.key.length = 32) (hkeyv : validBytes c.key)
    (hgood : GoodCipher c.encB c.decB)
    (hr16 : rand16.length = 16) (hr16v : validBytes rand16)
    (hmt : r.MsgType = "stream") (hid : SafeStr r.Stream.ID)
    (hct : SafeStr r.Stream.Content) (hcorp : SafeStr c.corpID)
    (hplen : (serializeJson (streamReplyJson r)).length < 4294967296) :
    ∃ msg,
      DecryptMessage c (EncryptResponse c r ts nonce rand16).MsgSignature
          (EncryptResponse c r ts nonce rand16).Timestamp
          (EncryptResponse c r ts nonce rand16).Nonce
          { Encrypt := (EncryptResponse c r ts nonce rand16).Encrypt }
        = Except.ok msg
      ∧ msg.MsgType = "stream"
      ∧ msg.Stream.map (fun sp => sp.ID) = some r.Stream.ID := by
  have hsafe : SafeJson (streamReplyJson r) := by
    refine SafeJson.obj _ ?_
    refine SafeFields.cons _ _ _ (by decide) (SafeJson.str _ ?_) ?_
    · rw [hmt]
      decide
    refine SafeFields.cons _ _ _ (by decide) (SafeJson.obj _ ?_) SafeFields.nil
    refine SafeFields.cons _ _ _ (by decide) (SafeJson.str _ hid) ?_
    refine SafeFields.cons _ _ _ (by decide) (SafeJson.bool _) ?_
    exact SafeFields.cons _ _ _ (by decide) (SafeJson.str _ hct) SafeFields.nil
  have hmsg : msgOfJson (streamReplyJson r)
      = some { MsgType := "stream",
               Stream := some { ID := r.Stream.ID, Finish := r.Stream.Finish,
                                Content := r.Stream.Content } } := by
    simp [msgOfJson, streamReplyJson, streamOfJson, strOfJson, boolOfJson,
      alookup, hmt]
  exact ⟨{ MsgType := "stream",
           Stream := some { ID := r.Stream.ID, Finish := r.Stream.Finish,
                            Content := r.Stream.Content } },
    DecryptMessage_pipeline c (streamReplyJson r) _ ts nonce rand16 hkey hkeyv
      hgood hr16 hr16v hsafe hcorp hplen hmsg,
    rfl, rfl⟩

/-- The spec's seed-test Crypt (S1): 32-byte key of repeated 0x11,
token "token", corp "corpID"; the block cipher and digest are the
identity instances of the abstracted primitives. -/
def c9Crypt : Crypt :=
  { token := "token"
    key := List.replicate 32 17
    corpID := "corpID"
    encB := fun b => b
    decB := fun b => b
    hash := fun s => s }

theorem encrypt_decrypt_roundtrip_witness :
    ∃ msg,
      DecryptMessage c9Crypt
          (EncryptResponse c9Crypt (BuildStreamReply "stream-id" "hello" false)
            "1700000000" "nonce" (List.replicate 16 0)).MsgSignature
          (EncryptResponse c9Crypt (BuildStreamReply "stream-id" "hello" false)
            "1700000000" "nonce" (List.replicate 16 0)).Timestamp
          (EncryptResponse c9Crypt (BuildStreamReply "stream-id" "hello" false)
            "1700000000" "nonce" (List.replicate 16 0)).Nonce
          { Encrypt := (EncryptResponse c9Crypt
              (BuildStreamReply "stream-id" "hello" false)
              "1700000000" "nonce" (List.replicate 16 0)).Encrypt }
        = Except.ok msg
      ∧ msg.MsgType = "stream"
      ∧ msg.Stream.map (fun sp => sp.ID) = some "stream-id" :=
  encrypt_decrypt_roundtrip c9Crypt (BuildStreamReply "stream-id" "hello" false)
    "1700000000" "nonce" (List.replicate 16 0)
    (by decide) (by decide)
    (fun b hl hv => ⟨hl, hv, rfl⟩)
    (by decide) (by decide)
    rfl (by decide) (by decide) (by decide)
    (by decide)

end IMBot
